import Mathlib

/-!
Verification of the core, pure layer of the random-coffee bot: the
deterministic RNG, the Fisher–Yates shuffle, the history-minimizing pairing
engine, the schedule decision engine, the state-transition functions, the
update-folding function, and the stop-poll error classification.

JavaScript records keyed by strings are modelled as lookup functions
`String → Option V`; JavaScript `%` on numbers is `Int.tmod` (remainder with
the sign of the dividend); `undefined`/`null` are modelled with `Option`.
-/

namespace RandomCoffee

/-- JS record used as a string-keyed map: modelled by its lookup function. -/
abbrev StrMap (V : Type) := String → Option V

/-- The empty record `{}`. -/
def mapEmpty {V : Type} : StrMap V := fun _ => none

/-- Spread-insert `{...m, [k]: v}` (lookup view). -/
def mapInsert {V : Type} (m : StrMap V) (k : String) (v : V) : StrMap V :=
  fun key => if key = k then some v else m key

/-- `Object.fromEntries(Object.entries(m).filter(([key]) => key !== k))`. -/
def mapRemove {V : Type} (m : StrMap V) (k : String) : StrMap V :=
  fun key => if key = k then none else m key

/-! ## Deterministic RNG (`rng.ts`) -/

/-- Lehmer modulus `2_147_483_647`. -/
def modulus : Int := 2147483647

/-- Lehmer multiplier `48_271`. -/
def multiplier : Int := 48271

/-- `nextSeed` from `rng.ts`: normalize `seed % modulus` to a positive value,
then return `(positive * multiplier) % modulus`. JS `%` is `Int.tmod`. -/
def nextSeed (seed : Int) : Int :=
  let normalized := Int.tmod seed modulus
  let positive := if normalized > 0 then normalized else normalized + modulus
  Int.tmod (positive * multiplier) modulus

/-- `randomInt` from `rng.ts`: advance the seed once; value is
`next % upperExclusive` (or `0` when the bound is not positive). -/
def randomInt (seed : Int) (upperExclusive : Int) :
    Int × Int :=
  let next := nextSeed seed
  (if upperExclusive ≤ 0 then 0 else Int.tmod next upperExclusive, next)

/-! ## Fisher–Yates shuffle (`rng.ts`)

The TS `shuffle` is generic in `T`, and its loop body skips the swap when
either slot holds `undefined`. We model elements as `Option α` with `none`
playing the role of `undefined` (an out-of-range JS index read also yields
`undefined`, which the same guard absorbs). -/

/-- One JS loop body: read `copy[i]` and `copy[j]`; when both are defined
(and hence in range), write `copy[i] = swap; copy[j] = current`. -/
def swapAt {α : Type} (l : List (Option α)) (i j : Nat) : List (Option α) :=
  match l.get? i with
  | some (some x) =>
    match l.get? j with
    | some (some y) => (l.set i (some y)).set j (some x)
    | _ => l
  | _ => l

/-- The `for (let i = copy.length - 1; i > 0; i -= 1)` loop of `shuffle`,
parameterized by the current index `i`. -/
def shuffleLoop {α : Type} : List (Option α) → Int → Nat → List (Option α) × Int
  | l, s, 0 => (l, s)
  | l, s, k + 1 =>
    let r := randomInt s ((k : Int) + 2)
    shuffleLoop (swapAt l (k + 1) r.1.toNat) r.2 k

/-- `shuffle` from `rng.ts`. -/
def shuffle {α : Type} (items : List (Option α)) (seed : Int) :
    List (Option α) × Int :=
  shuffleLoop items seed (items.length - 1)

/-! ## Shuffle permutation lemmas -/

theorem cons_set_perm {β : Type} :
    ∀ (t : List β) (k : Nat) (hk : k < t.length) (a : β),
      List.Perm (t.get ⟨k, hk⟩ :: t.set k a) (a :: t)
  | b :: t', 0, _, a => by
    simpa using List.Perm.swap a b t'
  | b :: t', k + 1, hk, a => by
    have hk' : k < t'.length := Nat.lt_of_succ_lt_succ (by simpa using hk)
    have ih := cons_set_perm t' k hk' a
    have h1 : ((b :: t').get ⟨k + 1, hk⟩ :: (b :: t').set (k + 1) a)
        = t'.get ⟨k, hk'⟩ :: b :: t'.set k a := rfl
    rw [h1]
    exact ((List.Perm.swap b _ _).trans (ih.cons b)).trans (List.Perm.swap a b t')

theorem set_set_perm {β : Type} :
    ∀ (l : List β) (i j : Nat) (hi : i < l.length) (hj : j < l.length),
      List.Perm ((l.set i (l.get ⟨j, hj⟩)).set j (l.get ⟨i, hi⟩)) l
  | c :: t, 0, 0, _, _ => by simp
  | c :: t, 0, j + 1, hi, hj => by
    have hj' : j < t.length := Nat.lt_of_succ_lt_succ (by simpa using hj)
    simpa [List.set] using cons_set_perm t j hj' c
  | c :: t, i + 1, 0, hi, hj => by
    have hi' : i < t.length := Nat.lt_of_succ_lt_succ (by simpa using hi)
    simpa [List.set] using cons_set_perm t i hi' c
  | c :: t, i + 1, j + 1, hi, hj => by
    have hi' : i < t.length := Nat.lt_of_succ_lt_succ (by simpa using hi)
    have hj' : j < t.length := Nat.lt_of_succ_lt_succ (by simpa using hj)
    have ih := set_set_perm t i j hi' hj'
    simpa [List.set] using List.Perm.cons c ih

theorem swapAt_perm {α : Type} (l : List (Option α)) (i j : Nat) :
    List.Perm (swapAt l i j) l := by
  unfold swapAt
  cases hi : l.get? i with
  | none => exact List.Perm.refl l
  | some oi =>
    cases oi with
    | none => exact List.Perm.refl l
    | some x =>
      cases hj : l.get? j with
      | none => exact List.Perm.refl l
      | some oj =>
        cases oj with
        | none => exact List.Perm.refl l
        | some y =>
          have hi' : i < l.length := (List.get?_eq_some.mp hi).1
          have hj' : j < l.length := (List.get?_eq_some.mp hj).1
          have hgi : l.get ⟨i, hi'⟩ = some x := (List.get?_eq_some.mp hi).2
          have hgj : l.get ⟨j, hj'⟩ = some y := (List.get?_eq_some.mp hj).2
          show List.Perm ((l.set i (some y)).set j (some x)) l
          rw [← hgi, ← hgj]
          exact set_set_perm l i j hi' hj'

theorem shuffleLoop_perm {α : Type} :
    ∀ (k : Nat) (l : List (Option α)) (s : Int),
      List.Perm (shuffleLoop l s k).1 l
  | 0, l, s => List.Perm.refl l
  | k + 1, l, s => by
    unfold shuffleLoop
    exact List.Perm.trans
      (shuffleLoop_perm k _ _)
      (swapAt_perm l (k + 1) (randomInt s ((k : Int) + 2)).1.toNat)

/-- **C9.** `shuffle` preserves the length and the multiset of elements of its
input, for every seed — including inputs with duplicate entries and with
`undefined` (here `none`) entries, which the loop's definedness guard skips
over without dropping. -/
theorem shuffle_preserves_content {α : Type} (items : List (Option α)) (seed : Int) :
    (shuffle items seed).1.length = items.length ∧
      List.Perm (shuffle items seed).1 items := by
  have h := shuffleLoop_perm (α := α) (items.length - 1) items seed
  exact ⟨h.length_eq, h⟩

/-- **C3.** The claim "for every integer seed, `nextSeed seed` is strictly
between `0` and `2 147 483 647`" fails at `seed = 0`: the normalization maps
`0` to `modulus` itself, and `(modulus * multiplier) % modulus = 0`, so the
generator returns `0` — contradicting the code's own `INVARIANT` comment. -/
theorem nextSeed_zero_fixpoint :
    nextSeed 0 = 0 ∧ ¬ (0 < nextSeed 0 ∧ nextSeed 0 < modulus) := by
  constructor
  · decide
  · intro h
    have h0 : nextSeed 0 = 0 := by decide
    rw [h0] at h
    exact absurd h.1 (lt_irrefl 0)

/-! ## Domain records (`domain.ts`) -/

/-- `Participant` — identity is `id`; the name fields are metadata. -/
structure Participant where
  id : Int
  firstName : String
  lastName : Option String := none
  username : Option String := none
deriving DecidableEq

/-- `PairHistory` — JS record from canonical pair key to repeat count. -/
abbrev PairHistory := StrMap Int

/-- `Pairing` — tagged union of a 2-member pair and a 3-member triple. -/
inductive Pairing where
  | pair (a b : Participant)
  | triple (a b c : Participant)
deriving DecidableEq

/-- Members of a pairing, in order. -/
def Pairing.members : Pairing → List Participant
  | .pair a b => [a, b]
  | .triple a b c => [a, b, c]

/-! ## Pairing engine (`pairing.ts`) -/

/-- `keyFor`: canonical `"<minId>-<maxId>"` history key. -/
def keyFor (a b : Participant) : String :=
  if a.id < b.id
  then toString a.id ++ "-" ++ toString b.id
  else toString b.id ++ "-" ++ toString a.id

/-- `historyCount`: `history[keyFor(a, b)] ?? 0`. -/
def historyCount (history : PairHistory) (a b : Participant) : Int :=
  (history (keyFor a b)).getD 0

/-- `incrementHistory`: bump the canonical key's count by one. -/
def incrementHistory (history : PairHistory) (a b : Participant) : PairHistory :=
  mapInsert history (keyFor a b) ((history (keyFor a b)).getD 0 + 1)

/-- The candidate scan of `choosePartner`: `minCount` starts at positive
infinity (modelled as `none`) and `best` collects the candidates tied at the
minimum observed history count, in candidate order. -/
def scanBest (current : Participant) (history : PairHistory) :
    List Participant → Option Int → List Participant → Option Int × List Participant
  | [], minCount, best => (minCount, best)
  | c :: cs, minCount, best =>
    let count := historyCount history current c
    match minCount with
    | none => scanBest current history cs (some count) [c]
    | some m =>
      if count < m then scanBest current history cs (some count) [c]
      else if count = m then scanBest current history cs (some m) (best ++ [c])
      else scanBest current history cs (some m) best

/-- `choosePartner` from `pairing.ts`: take the least-history candidates,
tie-break uniformly with `randomInt` (which is only consulted — and the seed
only advanced — when more than one candidate ties), with the JS
`best[picked.value] ?? candidates[0] ?? current` fallback chain. -/
def choosePartner (current : Participant) (candidates : List Participant)
    (history : PairHistory) (seed : Int) : Participant × Int :=
  let best := (scanBest current history candidates none []).2
  let picked := if best.length > 1 then randomInt seed (best.length : Int) else (0, seed)
  let partner :=
    match best.get? picked.1.toNat with
    | some p => p
    | none =>
      match candidates.get? 0 with
      | some q => q
      | none => current
  (partner, picked.2)

/-- `removeById`: drop every candidate whose id equals the participant's. -/
def removeById (candidates : List Participant) (participant : Participant) :
    List Participant :=
  candidates.filter (fun c => c.id ≠ participant.id)

/-- Result record of `buildPairs` / `pairParticipants`. -/
structure PairBuild where
  pairs : List Pairing
  remaining : List Participant
  seed : Int

/-- The `while (remaining.length >= 2)` loop of `buildPairs`: pop the first
remaining participant, choose its partner among the rest, emit the pair, and
drop both from the pool. -/
def buildPairsGo (history : PairHistory) :
    List Participant → Int → PairBuild
  | [], s => ⟨[], [], s⟩
  | [a], s => ⟨[], [a], s⟩
  | current :: b :: rest, s =>
    let cands := b :: rest
    let chosen := choosePartner current cands history s
    let built := buildPairsGo history (removeById cands chosen.1) chosen.2
    ⟨Pairing.pair current chosen.1 :: built.pairs, built.remaining, built.seed⟩
termination_by remaining _ => remaining.length
decreasing_by
  have h : (removeById (b :: rest) (choosePartner current (b :: rest) history s).1).length
      ≤ (b :: rest).length := List.length_filter_le _ _
  simp only [List.length_cons] at h ⊢
  omega

/-- `buildPairs` from `pairing.ts`. -/
def buildPairs (participants : List Participant) (history : PairHistory)
    (seed : Int) : PairBuild :=
  buildPairsGo history participants seed

/-- Strip the `Option` embedding used to instantiate the generic shuffle. -/
def stripSome {α : Type} (l : List (Option α)) : List α := l.filterMap id

/-- `pairParticipants` from `pairing.ts`: fewer than two participants are all
leftovers (seed untouched); otherwise shuffle first, then build pairs. The
generic TS `shuffle` is instantiated at `Participant` via the `Option`
embedding (`map some` in, `stripSome` out; participants are never
`undefined`, so nothing is dropped). -/
def pairParticipants (participants : List Participant) (history : PairHistory)
    (seed : Int) : PairBuild :=
  if participants.length < 2 then ⟨[], participants, seed⟩
  else
    let shuffled := shuffle (participants.map some) seed
    buildPairs (stripSome shuffled.1) history shuffled.2

/-- Concatenated members of a list of pairings. -/
def pairsMembers : List Pairing → List Participant
  | [] => []
  | p :: rest => p.members ++ pairsMembers rest

/-! ## Pairing partition lemmas (C1) -/

theorem scanBest_mem (current : Participant) (history : PairHistory) :
    ∀ (cs : List Participant) (minCount : Option Int) (best : List Participant)
      (x : Participant),
      x ∈ (scanBest current history cs minCount best).2 → x ∈ best ∨ x ∈ cs := by
  intro cs
  induction cs with
  | nil => intro minCount best x hx; exact Or.inl hx
  | cons c cs ih =>
    intro minCount best x hx
    simp only [scanBest] at hx
    rcases minCount with _ | m
    · rcases ih _ _ _ hx with h | h
      · rcases List.mem_singleton.mp h with rfl
        exact Or.inr (List.mem_cons_self _ _)
      · exact Or.inr (List.mem_cons_of_mem _ h)
    · by_cases h1 : historyCount history current c < m
      · simp only [if_pos h1] at hx
        rcases ih _ _ _ hx with h | h
        · rcases List.mem_singleton.mp h with rfl
          exact Or.inr (List.mem_cons_self _ _)
        · exact Or.inr (List.mem_cons_of_mem _ h)
      · simp only [if_neg h1] at hx
        by_cases h2 : historyCount history current c = m
        · simp only [if_pos h2] at hx
          rcases ih _ _ _ hx with h | h
          · rcases List.mem_append.mp h with h | h
            · exact Or.inl h
            · rcases List.mem_singleton.mp h with rfl
              exact Or.inr (List.mem_cons_self _ _)
          · exact Or.inr (List.mem_cons_of_mem _ h)
        · simp only [if_neg h2] at hx
          rcases ih _ _ _ hx with h | h
          · exact Or.inl h
          · exact Or.inr (List.mem_cons_of_mem _ h)

theorem choosePartner_mem (current : Participant) (candidates : List Participant)
    (history : PairHistory) (seed : Int) (hne : candidates ≠ []) :
    (choosePartner current candidates history seed).1 ∈ candidates := by
  unfold choosePartner
  rcases candidates with _ | ⟨c, cs⟩
  · exact absurd rfl hne
  · simp only
    set best := (scanBest current history (c :: cs) none []).2 with hbest
    set v := (if best.length > 1 then randomInt seed (best.length : Int) else (0, seed)).1.toNat
    cases hb : best.get? v with
    | some p =>
      have hp : p ∈ best := List.get?_mem hb
      rcases scanBest_mem current history (c :: cs) none [] p (hbest ▸ hp) with h | h
      · exact absurd h (List.not_mem_nil p)
      · exact h
    | none => exact List.mem_cons_self c cs

theorem removeById_cons_perm :
    ∀ (l : List Participant), l.Pairwise (fun a b => a.id ≠ b.id) →
      ∀ (x : Participant), x ∈ l → List.Perm (x :: removeById l x) l := by
  intro l
  induction l with
  | nil => intro _ x hx; exact absurd hx (List.not_mem_nil x)
  | cons a t ih =>
    intro hpw x hx
    have hpwt := (List.pairwise_cons.mp hpw).2
    have hids := (List.pairwise_cons.mp hpw).1
    rcases List.mem_cons.mp hx with rfl | hxt
    · have hfil : removeById (x :: t) x = t := by
        unfold removeById
        rw [List.filter_cons, if_neg (by simp)]
        exact List.filter_eq_self.mpr (fun b hb => by
          simpa using fun heq => (hids b hb) heq.symm)
      rw [hfil]
    · have hxa : a.id ≠ x.id := hids x hxt
      have hfil : removeById (a :: t) x = a :: removeById t x := by
        unfold removeById
        rw [List.filter_cons, if_pos (by simpa using hxa)]
      rw [hfil]
      exact (List.Perm.swap a x (removeById t x)).trans ((ih hpwt x hxt).cons a)

theorem buildPairsGo_partition (history : PairHistory) :
    ∀ (n : Nat) (remaining : List Participant) (s : Int),
      remaining.length ≤ n →
      remaining.Pairwise (fun a b => a.id ≠ b.id) →
      List.Perm
        (pairsMembers (buildPairsGo history remaining s).pairs ++
          (buildPairsGo history remaining s).remaining) remaining ∧
      (buildPairsGo history remaining s).remaining.length = remaining.length % 2 := by
  intro n
  induction n with
  | zero =>
    intro remaining s hlen _
    have h0 : remaining = [] := List.length_eq_zero.mp (Nat.le_zero.mp hlen)
    subst h0
    exact ⟨by simp [buildPairsGo, pairsMembers], by simp [buildPairsGo]⟩
  | succ n ih =>
    intro remaining s hlen hpw
    match remaining with
    | [] => exact ⟨by simp [buildPairsGo, pairsMembers], by simp [buildPairsGo]⟩
    | [a] => exact ⟨by simp [buildPairsGo, pairsMembers], by simp [buildPairsGo]⟩
    | current :: b :: rest =>
      have hpwc : (b :: rest).Pairwise (fun a b => a.id ≠ b.id) :=
        (List.pairwise_cons.mp hpw).2
      have hmem : (choosePartner current (b :: rest) history s).1 ∈ b :: rest :=
        choosePartner_mem current (b :: rest) history s (by simp)
      have hperm : List.Perm
          ((choosePartner current (b :: rest) history s).1 ::
            removeById (b :: rest) (choosePartner current (b :: rest) history s).1)
          (b :: rest) :=
        removeById_cons_perm (b :: rest) hpwc _ hmem
      have hlenrem :
          (removeById (b :: rest) (choosePartner current (b :: rest) history s).1).length
            + 1 = (b :: rest).length := by
        simpa using hperm.length_eq
      have hpwrem :
          (removeById (b :: rest)
            (choosePartner current (b :: rest) history s).1).Pairwise
            (fun a b => a.id ≠ b.id) :=
        List.Pairwise.sublist (List.filter_sublist _) hpwc
      have hlen' :
          (removeById (b :: rest) (choosePartner current (b :: rest) history s).1).length
            ≤ n := by
        simp only [List.length_cons] at hlen hlenrem
        omega
      obtain ⟨ihp, ihl⟩ := ih
        (removeById (b :: rest) (choosePartner current (b :: rest) history s).1)
        (choosePartner current (b :: rest) history s).2 hlen' hpwrem
      rw [buildPairsGo]
      constructor
      · simp only [pairsMembers, Pairing.members, List.cons_append,
          List.nil_append, List.append_assoc]
        exact ((ihp.cons _).trans hperm).cons current
      · simp only [List.length_cons] at hlenrem ihl ⊢
        omega

theorem stripSome_map_some {α : Type} (l : List α) :
    stripSome (l.map some) = l := by
  induction l with
  | nil => rfl
  | cons a t ih =>
    simp only [stripSome] at ih ⊢
    simp [ih]

/-- **C1.** For participants with pairwise-distinct ids, every history and
every seed, `pairParticipants` splits the input exactly: the concatenation of
all produced pair members with the leftovers is a permutation of the input
(so each participant lands in exactly one pair or in the leftovers, never in
both and never twice — made explicit by the occurrence count), and the number
of leftovers is the input length modulo 2. -/
theorem pairParticipants_partition (participants : List Participant)
    (history : PairHistory) (seed : Int)
    (hids : participants.Pairwise (fun a b => a.id ≠ b.id)) :
    List.Perm
      (pairsMembers (pairParticipants participants history seed).pairs ++
        (pairParticipants participants history seed).remaining) participants ∧
    (pairParticipants participants history seed).remaining.length =
      participants.length % 2 ∧
    ∀ p ∈ participants,
      (pairsMembers (pairParticipants participants history seed).pairs ++
        (pairParticipants participants history seed).remaining).count p = 1 := by
  have hnodup : participants.Nodup :=
    hids.imp (fun h => by intro heq; exact h (heq ▸ rfl))
  by_cases hlt : participants.length < 2
  · have hres : pairParticipants participants history seed =
        ⟨[], participants, seed⟩ := by
      unfold pairParticipants
      rw [if_pos hlt]
    rw [hres]
    refine ⟨by simp [pairsMembers], by simp; omega, ?_⟩
    intro p hp
    simp only [pairsMembers, List.nil_append]
    exact List.count_eq_one_of_mem hnodup hp
  · have hres : pairParticipants participants history seed =
        buildPairs (stripSome (shuffle (participants.map some) seed).1)
          history (shuffle (participants.map some) seed).2 := by
      unfold pairParticipants
      rw [if_neg hlt]
    have hshuf : List.Perm (shuffle (participants.map some) seed).1
        (participants.map some) :=
      shuffleLoop_perm ((participants.map some).length - 1)
        (participants.map some) seed
    have hshuf' : List.Perm
        (stripSome (shuffle (participants.map some) seed).1) participants := by
      have h1 : List.Perm (stripSome (shuffle (participants.map some) seed).1)
          (stripSome (participants.map some)) := List.Perm.filterMap id hshuf
      rwa [stripSome_map_some participants] at h1
    have hpws : (stripSome (shuffle (participants.map some) seed).1).Pairwise
        (fun a b => a.id ≠ b.id) :=
      (hshuf'.pairwise_iff (fun hxy heq => hxy heq.symm)).mpr hids
    have hmain := buildPairsGo_partition history
      (stripSome (shuffle (participants.map some) seed).1).length
      (stripSome (shuffle (participants.map some) seed).1)
      (shuffle (participants.map some) seed).2 (le_refl _) hpws
    rw [hres]
    have hperm : List.Perm
        (pairsMembers (buildPairs (stripSome (shuffle (participants.map some) seed).1)
            history (shuffle (participants.map some) seed).2).pairs ++
          (buildPairs (stripSome (shuffle (participants.map some) seed).1)
            history (shuffle (participants.map some) seed).2).remaining)
        participants := hmain.1.trans hshuf'
    refine ⟨hperm, ?_, ?_⟩
    · have hlen := hmain.2
      simp only [buildPairs] at *
      rw [hlen, hshuf'.length_eq]
    · intro p hp
      rw [hperm.count_eq]
      exact List.count_eq_one_of_mem hnodup hp

/-- Witness for C1: three concrete participants with distinct ids. -/
theorem pairParticipants_partition_witness :
    ([⟨1, "a", none, none⟩, ⟨2, "b", none, none⟩,
        (⟨3, "c", none, none⟩ : Participant)].Pairwise
      (fun a b => a.id ≠ b.id)) ∧
    (List.Perm
      (pairsMembers (pairParticipants
          [⟨1, "a", none, none⟩, ⟨2, "b", none, none⟩, ⟨3, "c", none, none⟩]
          mapEmpty 1).pairs ++
        (pairParticipants
          [⟨1, "a", none, none⟩, ⟨2, "b", none, none⟩, ⟨3, "c", none, none⟩]
          mapEmpty 1).remaining)
      [⟨1, "a", none, none⟩, ⟨2, "b", none, none⟩, ⟨3, "c", none, none⟩] ∧
    (pairParticipants
        [⟨1, "a", none, none⟩, ⟨2, "b", none, none⟩, ⟨3, "c", none, none⟩]
        mapEmpty 1).remaining.length = 3 % 2 ∧
    ∀ p ∈ ([⟨1, "a", none, none⟩, ⟨2, "b", none, none⟩,
        (⟨3, "c", none, none⟩ : Participant)]),
      (pairsMembers (pairParticipants
          [⟨1, "a", none, none⟩, ⟨2, "b", none, none⟩, ⟨3, "c", none, none⟩]
          mapEmpty 1).pairs ++
        (pairParticipants
          [⟨1, "a", none, none⟩, ⟨2, "b", none, none⟩, ⟨3, "c", none, none⟩]
          mapEmpty 1).remaining).count p = 1) :=
  ⟨by decide, pairParticipants_partition _ mapEmpty 1 (by decide)⟩

/-! ## Chat state records (`domain.ts`) -/

/-- `ParticipantsById` — JS record keyed by stringified user id. -/
abbrev ParticipantsById := StrMap Participant

/-- `PollState` — the currently open poll of a chat. -/
structure PollState where
  pollId : String
  messageId : Int
  chatId : String
  summaryDate : String
  threadId : Option Int
deriving DecidableEq

/-- `ChatState` — one instance per registered chat. -/
structure ChatState where
  poll : Option PollState
  participants : ParticipantsById
  history : PairHistory
  seed : Int
  threadId : Option Int
  title : Option String
  inviteLink : Option String
  lastSummaryAt : Option String

/-- `BotState` — the root aggregate (`domain.ts`). -/
structure BotState where
  chats : StrMap ChatState
  pollIndex : StrMap String
  updateOffset : Int
  seed : Int

/-! ## Schedule engine (`schedule.ts`) -/

inductive Weekday where
  | Mon | Tue | Wed | Thu | Fri | Sat | Sun
deriving DecidableEq

/-- The `weekdayIndex` table: `Mon..Sun ↦ 1..7`. -/
def weekdayIndex : Weekday → Int
  | .Mon => 1
  | .Tue => 2
  | .Wed => 3
  | .Thu => 4
  | .Fri => 5
  | .Sat => 6
  | .Sun => 7

/-- Calendar-date parts as produced by the time service. -/
structure LocalDateParts where
  year : Int
  month : Int
  day : Int
deriving DecidableEq

/-- `String.prototype.padStart(len, c)`. -/
def padStart (s : String) (len : Nat) (c : Char) : String :=
  String.mk (List.replicate (len - s.length) c) ++ s

/-- `formatLocalDate`: zero-pad year to 4 digits, month/day to 2, join
with `-`. -/
def formatLocalDate (parts : LocalDateParts) : String :=
  padStart (toString parts.year) 4 '0' ++ "-" ++
    padStart (toString parts.month) 2 '0' ++ "-" ++
    padStart (toString parts.day) 2 '0'

/-- Days since 1970-01-01 of a civil date with month already normalized to
`1..12` (the arithmetic behind `Date.UTC`). -/
def daysFromCivil (y m d : Int) : Int :=
  let y' := if m ≤ 2 then y - 1 else y
  let era := Int.fdiv y' 400
  let yoe := y' - era * 400
  let mp := Int.emod (m + 9) 12
  let doy := Int.fdiv (153 * mp + 2) 5 + d - 1
  let doe := yoe * 365 + Int.fdiv yoe 4 - Int.fdiv yoe 100 + doy
  era * 146097 + doe - 719468

/-- Civil date of a days-since-epoch count (the arithmetic behind the
`getUTCFullYear`/`getUTCMonth`/`getUTCDate` reads). -/
def civilFromDays (z0 : Int) : LocalDateParts :=
  let z := z0 + 719468
  let era := Int.fdiv z 146097
  let doe := z - era * 146097
  let yoe := Int.fdiv (doe - Int.fdiv doe 1460 + Int.fdiv doe 36524 -
    Int.fdiv doe 146096) 365
  let y := yoe + era * 400
  let doy := doe - (365 * yoe + Int.fdiv yoe 4 - Int.fdiv yoe 100)
  let mp := Int.fdiv (5 * doy + 2) 153
  let d := doy - Int.fdiv (153 * mp + 2) 5 + 1
  let m := mp + (if mp < 10 then 3 else -9)
  ⟨if m ≤ 2 then y + 1 else y, m, d⟩

/-- `Date.UTC(year, month, day)`'s day count: months outside `0..11` roll the
year, day offsets are added from the first of the month. -/
def jsMakeDay (year month day : Int) : Int :=
  let ym := year + Int.fdiv month 12
  let mn := Int.emod month 12
  daysFromCivil ym (mn + 1) 1 + (day - 1)

/-- `addDays` from `schedule.ts`: UTC-anchored calendar arithmetic. -/
def addDays (parts : LocalDateParts) (days : Int) : LocalDateParts :=
  civilFromDays (jsMakeDay parts.year (parts.month - 1) parts.day + days)

/-- `nextMonday`: `(8 - weekdayIndex) % 7` days ahead. -/
def nextMonday (parts : LocalDateParts) (weekday : Weekday) : String :=
  formatLocalDate (addDays parts (Int.emod (8 - weekdayIndex weekday) 7))

/-- `isPollDay`: Friday, Saturday or Sunday. -/
def isPollDay (weekday : Weekday) : Bool :=
  weekday = Weekday.Fri || weekday = Weekday.Sat || weekday = Weekday.Sun

/-- `isSummaryDay`: Monday and the open poll's `summaryDate` is today. -/
def isSummaryDay (chat : ChatState) (today : String) (weekday : Weekday) : Bool :=
  decide (weekday = Weekday.Mon) &&
    (match chat.poll with
     | some p => decide (p.summaryDate = today)
     | none => false)

/-- `shouldSkipSchedule` from `schedule.ts`. -/
def shouldSkipSchedule (chat : ChatState) (today : String) (weekday : Weekday) :
    Bool :=
  if chat.lastSummaryAt = some today then true
  else if chat.poll.isSome && !(isSummaryDay chat today weekday) then true
  else false

/-- `ScheduleDecision` — tagged union. -/
inductive ScheduleDecision where
  | createPoll (summaryDate : String)
  | summarize (summaryDate : String)
  | noop
deriving DecidableEq

/-- `decideSchedule` from `schedule.ts`. -/
def decideSchedule (chat : ChatState) (todayParts : LocalDateParts)
    (weekday : Weekday) : ScheduleDecision :=
  let today := formatLocalDate todayParts
  if shouldSkipSchedule chat today weekday then ScheduleDecision.noop
  else if isSummaryDay chat today weekday then ScheduleDecision.summarize today
  else if isPollDay weekday then
    let summaryDate := nextMonday todayParts weekday
    if chat.poll.map PollState.summaryDate ≠ some summaryDate then
      ScheduleDecision.createPoll summaryDate
    else ScheduleDecision.noop
  else ScheduleDecision.noop

/-! ## Schedule decision lemmas (C2) -/

theorem shouldSkip_false_isSummaryDay (chat : ChatState) (t : String)
    (w : Weekday) (h : shouldSkipSchedule chat t w = false) (p : PollState)
    (hp : chat.poll = some p) : isSummaryDay chat t w = true := by
  unfold shouldSkipSchedule at h
  by_cases h1 : chat.lastSummaryAt = some t
  · rw [if_pos h1] at h
    exact absurd h (by simp)
  · rw [if_neg h1] at h
    by_cases h2 : (chat.poll.isSome && !(isSummaryDay chat t w)) = true
    · rw [if_pos h2] at h
      exact absurd h (by simp)
    · simp only [hp, Option.isSome_some, Bool.true_and, Bool.not_eq_true'] at h2
      simpa using h2

/-- **C2.** Scheduling decisions, in the order the code tests them: when
`lastSummaryAt` is today the decision is `noop`; otherwise a chat with an
open poll gets `summarize today` exactly when today is Monday and the poll's
`summaryDate` is today, and `noop` in every other case; and a chat with an
open poll never receives `createPoll`. `decideSchedule` is a function, so
exactly one decision is produced per evaluation. -/
theorem decideSchedule_spec (chat : ChatState) (parts : LocalDateParts)
    (weekday : Weekday) :
    (chat.lastSummaryAt = some (formatLocalDate parts) →
      decideSchedule chat parts weekday = ScheduleDecision.noop) ∧
    (∀ p, chat.poll = some p →
      chat.lastSummaryAt ≠ some (formatLocalDate parts) →
      ((weekday = Weekday.Mon ∧ p.summaryDate = formatLocalDate parts →
        decideSchedule chat parts weekday =
          ScheduleDecision.summarize (formatLocalDate parts)) ∧
      (¬(weekday = Weekday.Mon ∧ p.summaryDate = formatLocalDate parts) →
        decideSchedule chat parts weekday = ScheduleDecision.noop))) ∧
    (∀ p, chat.poll = some p → ∀ d,
      decideSchedule chat parts weekday ≠ ScheduleDecision.createPoll d) := by
  refine ⟨?_, ?_, ?_⟩
  · intro hlast
    have hskip : shouldSkipSchedule chat (formatLocalDate parts) weekday = true := by
      unfold shouldSkipSchedule
      rw [if_pos hlast]
    unfold decideSchedule
    rw [if_pos hskip]
  · intro p hp hlast
    constructor
    · rintro ⟨hmon, hsd⟩
      have hsum : isSummaryDay chat (formatLocalDate parts) weekday = true := by
        simp [isSummaryDay, hp, hmon, hsd]
      have hskip : shouldSkipSchedule chat (formatLocalDate parts) weekday
          = false := by
        unfold shouldSkipSchedule
        rw [if_neg hlast, hsum]
        simp
      unfold decideSchedule
      rw [if_neg (by simp [hskip]), if_pos hsum]
    · intro hnot
      have hsum : isSummaryDay chat (formatLocalDate parts) weekday = false := by
        simp only [isSummaryDay, hp]
        by_cases hmon : weekday = Weekday.Mon
        · have hsd : ¬ p.summaryDate = formatLocalDate parts :=
            fun h => hnot ⟨hmon, h⟩
          simp [hmon, hsd]
        · simp [hmon]
      have hskip : shouldSkipSchedule chat (formatLocalDate parts) weekday
          = true := by
        unfold shouldSkipSchedule
        rw [if_neg hlast]
        simp [hp, hsum]
      unfold decideSchedule
      rw [if_pos hskip]
  · intro p hp d heq
    unfold decideSchedule at heq
    by_cases hskip : shouldSkipSchedule chat (formatLocalDate parts) weekday = true
    · rw [if_pos hskip] at heq
      exact ScheduleDecision.noConfusion heq
    · have hsum := shouldSkip_false_isSummaryDay chat (formatLocalDate parts)
        weekday (by simpa using hskip) p hp
      rw [if_neg hskip, if_pos hsum] at heq
      exact ScheduleDecision.noConfusion heq

/-- Witness for C2: a chat whose open poll is due Monday 2026-01-12,
evaluated on that Monday, is told to summarize. -/
theorem decideSchedule_spec_witness :
    decideSchedule
      ⟨some ⟨"poll1", 5, "100", "2026-01-12", none⟩, mapEmpty, mapEmpty, 1,
        none, none, none, none⟩
      ⟨2026, 1, 12⟩ Weekday.Mon = ScheduleDecision.summarize "2026-01-12" := by
  have h := ((decideSchedule_spec
      ⟨some ⟨"poll1", 5, "100", "2026-01-12", none⟩, mapEmpty, mapEmpty, 1,
        none, none, none, none⟩
      ⟨2026, 1, 12⟩ Weekday.Mon).2.1
    ⟨"poll1", 5, "100", "2026-01-12", none⟩ rfl (by decide)).1
    ⟨rfl, by decide⟩
  rw [show formatLocalDate ⟨2026, 1, 12⟩ = "2026-01-12" from by decide] at h
  exact h

/-! ## State-transition functions (`state.ts`) -/

/-- `emptyChatState`. -/
def emptyChatState (seed : Int) : ChatState :=
  ⟨none, mapEmpty, mapEmpty, seed, none, none, none, none⟩

/-- `emptyState` (`domain.ts`). -/
def emptyState (seed : Int) : BotState :=
  ⟨mapEmpty, mapEmpty, 0, seed⟩

/-- `updateChat`: apply `updater` to an existing chat, no-op otherwise. -/
def updateChat (state : BotState) (chatId : String)
    (updater : ChatState → ChatState) : BotState :=
  match state.chats chatId with
  | none => state
  | some current =>
    { state with chats := mapInsert state.chats chatId (updater current) }

/-- `removePollIndex`: drop one poll-index entry. -/
def removePollIndex (state : BotState) (pollId : String) : BotState :=
  { state with pollIndex := mapRemove state.pollIndex pollId }

/-- `clearPoll`: update an existing chat and drop its poll-index entry.
The JS guard `pollId ? ... : ...` is truthiness, so an empty-string poll id
also skips the index removal. -/
def clearPoll (state : BotState) (chatId : String)
    (updater : ChatState → ChatState) : BotState :=
  match state.chats chatId with
  | none => state
  | some chat =>
    let updated := updateChat state chatId updater
    match chat.poll.map PollState.pollId with
    | some pid => if pid = "" then updated else removePollIndex updated pid
    | none => updated

/-- `ensureChat`: create a chat seeded with the current global seed and
advance the global seed, or no-op when the chat exists. -/
def ensureChat (state : BotState) (chatId : String) : BotState :=
  match state.chats chatId with
  | some _ => state
  | none =>
    { state with
        seed := nextSeed state.seed
        chats := mapInsert state.chats chatId (emptyChatState state.seed) }

/-- `setThreadId`. -/
def setThreadId (state : BotState) (chatId : String) (threadId : Option Int) :
    BotState :=
  updateChat state chatId (fun chat => { chat with threadId := threadId })

/-- `setChatTitle` (no-op when the title is unchanged). -/
def setChatTitle (state : BotState) (chatId : String) (title : String) :
    BotState :=
  updateChat state chatId (fun chat =>
    if chat.title = some title then chat else { chat with title := some title })

/-- `setChatInviteLink` (no-op when the link is unchanged). -/
def setChatInviteLink (state : BotState) (chatId : String)
    (inviteLink : Option String) : BotState :=
  updateChat state chatId (fun chat =>
    if chat.inviteLink = inviteLink then chat
    else { chat with inviteLink := inviteLink })

/-- `startPoll`: remove any stale index entry for the chat's current poll
(JS truthiness again skips an empty-string id), replace the chat's poll,
clear its participants, and index the new poll id — the index entry is added
even when the chat does not exist. -/
def startPoll (state : BotState) (chatId : String) (poll : PollState) :
    BotState :=
  let base :=
    match (state.chats chatId).bind (fun ch => ch.poll.map PollState.pollId) with
    | some pid => if pid = "" then state else removePollIndex state pid
    | none => state
  let updated := updateChat base chatId (fun chat =>
    { chat with poll := some poll, participants := mapEmpty })
  { updated with pollIndex := mapInsert updated.pollIndex poll.pollId chatId }

/-- `addPairHistory` (`pairing.ts`): one increment per unordered member
pair. -/
def addPairHistory (history : PairHistory) : Pairing → PairHistory
  | .pair a b => incrementHistory history a b
  | .triple a b c =>
    incrementHistory (incrementHistory (incrementHistory history a b) a c) b c

/-- `updateHistory` (`pairing.ts`). -/
def updateHistory (history : PairHistory) (pairs : List Pairing) : PairHistory :=
  pairs.foldl addPairHistory history

/-- `applySummary`: record history, clear poll and participants, store the
post-pairing seed and the summary date. -/
def applySummary (state : BotState) (chatId : String) (pairs : List Pairing)
    (seed : Int) (summaryDate : String) : BotState :=
  clearPoll state chatId (fun current =>
    { current with
        history := updateHistory current.history pairs
        poll := none
        participants := mapEmpty
        seed := seed
        lastSummaryAt := some summaryDate })

/-- `finishPoll`: clear poll and participants without touching history. -/
def finishPoll (state : BotState) (chatId : String) : BotState :=
  clearPoll state chatId (fun current =>
    { current with poll := none, participants := mapEmpty })

/-! ## Participant directory (`participants.ts`) -/

/-- `participantKey`: stringified user id. -/
def participantKey (id : Int) : String := toString id

/-- `upsertParticipant`. -/
def upsertParticipant (participants : ParticipantsById)
    (participant : Participant) : ParticipantsById :=
  mapInsert participants (participantKey participant.id) participant

/-- `removeParticipant`. -/
def removeParticipant (participants : ParticipantsById) (userId : Int) :
    ParticipantsById :=
  mapRemove participants (participantKey userId)

/-! ## Update folding (`updates.ts`) -/

/-- `ChatType` (`domain.ts`); `privateChat` models the `"private"` kind. -/
inductive ChatType where
  | privateChat | group | supergroup
deriving DecidableEq

/-- `isGroupChat` (`telegram-commands.ts`). -/
def isGroupChat : ChatType → Bool
  | .group => true
  | .supergroup => true
  | .privateChat => false

/-- `PollVote` facet of an update. -/
structure PollVote where
  pollId : String
  participant : Option Participant
  optionIds : List Int

/-- `ChatSeen` facet of an update. -/
structure ChatSeen where
  chatId : String
  chatType : ChatType
  chatTitle : Option String

/-- `ChatMessage` facet of an update (`sender` models `from`). -/
structure ChatMessage where
  chatId : String
  chatType : ChatType
  text : String
  sender : Option Participant
  messageThreadId : Option Int
  chatTitle : Option String

/-- `IncomingUpdate`. -/
structure IncomingUpdate where
  updateId : Int
  pollVote : Option PollVote
  chatSeen : Option ChatSeen
  message : Option ChatMessage

/-- `applyChatMetadata`: group chats are ensured and retitled (JS truthiness
skips an empty title). -/
def applyChatMetadata (state : BotState) (chatId : String) (chatType : ChatType)
    (chatTitle : Option String) : BotState :=
  if isGroupChat chatType then
    let withChat := ensureChat state chatId
    match chatTitle with
    | some t => if t = "" then withChat else setChatTitle withChat chatId t
    | none => withChat
  else state

/-- `applyChatSeen`. -/
def applyChatSeen (state : BotState) (chatSeen : ChatSeen) : BotState :=
  applyChatMetadata state chatSeen.chatId chatSeen.chatType chatSeen.chatTitle

/-- `applyMessage`. -/
def applyMessage (state : BotState) (message : ChatMessage) : BotState :=
  applyChatMetadata state message.chatId message.chatType message.chatTitle

/-- `applyPollVote`: route a vote through the poll index. `!chatId` is JS
truthiness, so an empty-string indexed chat id is ignored too. -/
def applyPollVote (state : BotState) (pollVote : PollVote) : BotState :=
  match state.pollIndex pollVote.pollId with
  | none => state
  | some chatId =>
    if chatId = "" then state
    else
      match state.chats chatId with
      | none => state
      | some chat =>
        match pollVote.participant with
        | none => state
        | some participant =>
          let voted := pollVote.optionIds.contains 0
          let participants :=
            if voted then upsertParticipant chat.participants participant
            else removeParticipant chat.participants participant.id
          { state with
              chats := mapInsert state.chats chatId
                { chat with participants := participants } }

/-- The ternary `update.chatSeen ? applyChatSeen(updated, ...) : updated`. -/
def foldChatSeen (state : BotState) (o : Option ChatSeen) : BotState :=
  match o with
  | some cs => applyChatSeen state cs
  | none => state

/-- The ternary `update.message ? applyMessage(withChatSeen, ...) : ...`. -/
def foldMessage (state : BotState) (o : Option ChatMessage) : BotState :=
  match o with
  | some msg => applyMessage state msg
  | none => state

/-- The ternary `update.pollVote ? applyPollVote(withMessage, ...) : ...`. -/
def foldPollVote (state : BotState) (o : Option PollVote) : BotState :=
  match o with
  | some pv => applyPollVote state pv
  | none => state

/-- The `for (const update of updates)` loop of `applyUpdates`, carrying the
running state and the running `maxUpdateId` (initially `-1`). -/
def applyUpdatesGo : BotState → Int → List IncomingUpdate → BotState × Int
  | state, maxId, [] => (state, maxId)
  | state, maxId, u :: rest =>
    applyUpdatesGo
      (foldPollVote (foldMessage (foldChatSeen state u.chatSeen) u.message)
        u.pollVote)
      (if u.updateId > maxId then u.updateId else maxId) rest

/-- `applyUpdates` from `updates.ts`. -/
def applyUpdates (state : BotState) (updates : List IncomingUpdate) : BotState :=
  let r := applyUpdatesGo state (-1) updates
  if updates.length = 0 then r.1
  else { r.1 with updateOffset := r.2 + 1 }

/-! ## Missing-chat frame behaviour (C7) -/

/-- **C7 counterexample.** `startPoll` on a chat id with no chat entry is not
a no-op: starting a poll for chat `"c"` on the empty state still registers
the `pollId ↦ "c"` poll-index entry, so the result differs from the input
state. -/
theorem startPoll_missing_chat_not_noop :
    startPoll (emptyState 1) "c" ⟨"p", 1, "c", "2026-01-12", none⟩ ≠
      emptyState 1 := by
  intro h
  have h2 := congrArg (fun st => st.pollIndex "p") h
  simp [startPoll, emptyState, mapEmpty, mapInsert, updateChat,
    removePollIndex] at h2

/-- **C7 (amended).** For a chat id with no entry in `state.chats`:
`setThreadId`, `setChatTitle`, `setChatInviteLink`, `applySummary` and
`finishPoll` return the input state unchanged; `startPoll` leaves `chats`
(and hence every chat entry) unchanged but still writes the poll-index
entry; and `ensureChat` creates the entry (it is the only function that
does). -/
theorem missing_chat_frame (s : BotState) (cid : String)
    (h : s.chats cid = none) (t : Option Int) (title : String)
    (link : Option String) (p : PollState) (pairs : List Pairing) (sd : Int)
    (date : String) :
    setThreadId s cid t = s ∧
    setChatTitle s cid title = s ∧
    setChatInviteLink s cid link = s ∧
    applySummary s cid pairs sd date = s ∧
    finishPoll s cid = s ∧
    (startPoll s cid p).chats = s.chats ∧
    (startPoll s cid p).pollIndex = mapInsert s.pollIndex p.pollId cid ∧
    (ensureChat s cid).chats cid = some (emptyChatState s.seed) := by
  refine ⟨?_, ?_, ?_, ?_, ?_, ?_, ?_, ?_⟩
  · simp [setThreadId, updateChat, h]
  · simp [setChatTitle, updateChat, h]
  · simp [setChatInviteLink, updateChat, h]
  · simp [applySummary, clearPoll, h]
  · simp [finishPoll, clearPoll, h]
  · simp [startPoll, updateChat, h]
  · simp [startPoll, updateChat, h]
  · simp [ensureChat, h, mapInsert]

/-- Witness for C7 (amended): concrete checks on the empty state. -/
theorem missing_chat_frame_witness :
    setThreadId (emptyState 1) "c" (some 7) = emptyState 1 ∧
    finishPoll (emptyState 1) "c" = emptyState 1 ∧
    (ensureChat (emptyState 1) "c").chats "c" = some (emptyChatState 1) := by
  have h := missing_chat_frame (emptyState 1) "c" rfl (some 7) "t" none
    ⟨"p", 1, "c", "2026-01-12", none⟩ [] 0 "2026-01-12"
  exact ⟨h.1, h.2.2.2.2.1, h.2.2.2.2.2.2.2⟩

/-! ## Poll-vote folding (C5) -/

/-- **C5 counterexample.** `applyPollVote` checks the indexed chat id with JS
truthiness (`!chatId`), so a poll index entry mapping to the empty-string
chat id is treated as missing: even though the entry exists, the chat `""`
exists, the vote carries a voter and selects option `0`, the state is
returned unchanged and the voter is not upserted. -/
theorem applyPollVote_empty_chatid_counterexample :
    (BotState.mk (mapInsert mapEmpty "" (emptyChatState 1))
        (mapInsert mapEmpty "p" "") 0 1).pollIndex "p" = some "" ∧
    (BotState.mk (mapInsert mapEmpty "" (emptyChatState 1))
        (mapInsert mapEmpty "p" "") 0 1).chats "" = some (emptyChatState 1) ∧
    applyPollVote
      (BotState.mk (mapInsert mapEmpty "" (emptyChatState 1))
        (mapInsert mapEmpty "p" "") 0 1)
      ⟨"p", some ⟨1, "alice", none, none⟩, [0]⟩ =
      BotState.mk (mapInsert mapEmpty "" (emptyChatState 1))
        (mapInsert mapEmpty "p" "") 0 1 ∧
    (emptyChatState 1).participants (participantKey 1) = none :=
  ⟨rfl, rfl, rfl, rfl⟩

/-- **C5 (amended).** `applyPollVote` returns the state unchanged when the
poll id has no index entry, when the index entry is the empty string (JS
truthiness), when the indexed chat does not exist, or when the vote carries
no voter; otherwise it upserts the voter into the chat's participants when
option `0` is selected and removes the voter when it is not. -/
theorem applyPollVote_spec (s : BotState) (pv : PollVote) :
    (s.pollIndex pv.pollId = none → applyPollVote s pv = s) ∧
    (s.pollIndex pv.pollId = some "" → applyPollVote s pv = s) ∧
    (∀ c, s.pollIndex pv.pollId = some c → s.chats c = none →
      applyPollVote s pv = s) ∧
    (pv.participant = none → applyPollVote s pv = s) ∧
    (∀ c chat part, s.pollIndex pv.pollId = some c → c ≠ "" →
      s.chats c = some chat → pv.participant = some part →
      ((0 ∈ pv.optionIds → applyPollVote s pv =
        { s with chats := mapInsert s.chats c { chat with
            participants := upsertParticipant chat.participants part } }) ∧
      (0 ∉ pv.optionIds → applyPollVote s pv =
        { s with chats := mapInsert s.chats c { chat with
            participants := removeParticipant chat.participants part.id } }))) := by
  refine ⟨?_, ?_, ?_, ?_, ?_⟩
  · intro h
    simp [applyPollVote, h]
  · intro h
    simp [applyPollVote, h]
  · intro c hc hchat
    by_cases hce : c = ""
    · subst hce
      simp [applyPollVote, hc]
    · simp [applyPollVote, hc, hce, hchat]
  · intro h
    unfold applyPollVote
    cases hidx : s.pollIndex pv.pollId with
    | none => rfl
    | some c =>
      by_cases hce : c = ""
      · subst hce; simp
      · simp only [if_neg hce]
        cases hchat : s.chats c with
        | none => rfl
        | some chat => simp [h]
  · intro c chat part hc hce hchat hpart
    constructor
    · intro hopt
      simp [applyPollVote, hc, hce, hchat, hpart, hopt]
    · intro hopt
      simp [applyPollVote, hc, hce, hchat, hpart, hopt]

/-- Witness for C5 (amended): a yes-vote for a real, non-empty indexed chat
adds the voter under their stringified id. -/
theorem applyPollVote_spec_witness :
    (applyPollVote
      (BotState.mk (mapInsert mapEmpty "100" (emptyChatState 1))
        (mapInsert mapEmpty "p" "100") 0 1)
      ⟨"p", some ⟨7, "bob", none, none⟩, [0]⟩).chats "100" =
      some { emptyChatState 1 with
        participants :=
          upsertParticipant (emptyChatState 1).participants
            ⟨7, "bob", none, none⟩ } := by
  have h := (((applyPollVote_spec
      (BotState.mk (mapInsert mapEmpty "100" (emptyChatState 1))
        (mapInsert mapEmpty "p" "100") 0 1)
      ⟨"p", some ⟨7, "bob", none, none⟩, [0]⟩).2.2.2.2
    "100" (emptyChatState 1) ⟨7, "bob", none, none⟩ rfl (by decide) rfl rfl).1
    (by decide))
  rw [h]
  simp [mapInsert]

/-! ## Update-offset behaviour (C4) -/

/-- The running-maximum fold of `applyUpdates`, from an arbitrary start. -/
def foldMaxId (m : Int) (updates : List IncomingUpdate) : Int :=
  updates.foldl (fun acc u => if u.updateId > acc then u.updateId else acc) m

/-- `maxUpdateId` as computed by `applyUpdates`: the running maximum of the
batch's update ids, started from `-1`. -/
def batchMaxId (updates : List IncomingUpdate) : Int := foldMaxId (-1) updates

theorem applyUpdatesGo_maxId :
    ∀ (us : List IncomingUpdate) (s : BotState) (m : Int),
      (applyUpdatesGo s m us).2 = foldMaxId m us := by
  intro us
  induction us with
  | nil => intro s m; rfl
  | cons u rest ih =>
    intro s m
    simp only [applyUpdatesGo, foldMaxId, List.foldl_cons]
    exact ih _ _

theorem updateChat_updateOffset (s : BotState) (cid : String)
    (f : ChatState → ChatState) :
    (updateChat s cid f).updateOffset = s.updateOffset := by
  unfold updateChat
  cases s.chats cid <;> rfl

theorem ensureChat_updateOffset (s : BotState) (cid : String) :
    (ensureChat s cid).updateOffset = s.updateOffset := by
  unfold ensureChat
  cases s.chats cid <;> rfl

theorem applyChatMetadata_updateOffset (s : BotState) (cid : String)
    (ct : ChatType) (title : Option String) :
    (applyChatMetadata s cid ct title).updateOffset = s.updateOffset := by
  unfold applyChatMetadata
  by_cases hg : isGroupChat ct
  · rw [if_pos hg]
    cases title with
    | none => exact ensureChat_updateOffset s cid
    | some t =>
      by_cases ht : t = ""
      · simp only [if_pos ht]
        exact ensureChat_updateOffset s cid
      · simp only [if_neg ht, setChatTitle]
        rw [updateChat_updateOffset]
        exact ensureChat_updateOffset s cid
  · rw [if_neg hg]

theorem applyPollVote_updateOffset (s : BotState) (pv : PollVote) :
    (applyPollVote s pv).updateOffset = s.updateOffset := by
  unfold applyPollVote
  split
  · rfl
  · split
    · rfl
    · split
      · rfl
      · split
        · rfl
        · rfl

theorem foldChatSeen_updateOffset (s : BotState) (o : Option ChatSeen) :
    (foldChatSeen s o).updateOffset = s.updateOffset := by
  cases o with
  | none => rfl
  | some cs => exact applyChatMetadata_updateOffset _ _ _ _

theorem foldMessage_updateOffset (s : BotState) (o : Option ChatMessage) :
    (foldMessage s o).updateOffset = s.updateOffset := by
  cases o with
  | none => rfl
  | some msg => exact applyChatMetadata_updateOffset _ _ _ _

theorem foldPollVote_updateOffset (s : BotState) (o : Option PollVote) :
    (foldPollVote s o).updateOffset = s.updateOffset := by
  cases o with
  | none => rfl
  | some pv => exact applyPollVote_updateOffset _ _

theorem applyUpdatesGo_updateOffset :
    ∀ (us : List IncomingUpdate) (s : BotState) (m : Int),
      (applyUpdatesGo s m us).1.updateOffset = s.updateOffset := by
  intro us
  induction us with
  | nil => intro s m; rfl
  | cons u rest ih =>
    intro s m
    simp only [applyUpdatesGo]
    rw [ih, foldPollVote_updateOffset, foldMessage_updateOffset,
      foldChatSeen_updateOffset]

theorem foldMaxId_init_le : ∀ (us : List IncomingUpdate) (m : Int),
    m ≤ foldMaxId m us := by
  intro us
  induction us with
  | nil => intro m; exact le_refl m
  | cons u rest ih =>
    intro m
    simp only [foldMaxId, List.foldl_cons]
    refine le_trans ?_ (ih _)
    by_cases h : u.updateId > m
    · rw [if_pos h]; exact le_of_lt h
    · rw [if_neg h]

theorem foldMaxId_mem_le : ∀ (us : List IncomingUpdate) (m : Int)
    (u : IncomingUpdate), u ∈ us → u.updateId ≤ foldMaxId m us := by
  intro us
  induction us with
  | nil => intro m u hu; exact absurd hu (List.not_mem_nil u)
  | cons v rest ih =>
    intro m u hu
    rcases List.mem_cons.mp hu with rfl | hu'
    · simp only [foldMaxId, List.foldl_cons]
      refine le_trans ?_ (foldMaxId_init_le rest _)
      by_cases h : u.updateId > m
      · rw [if_pos h]
      · rw [if_neg h]; omega
    · simp only [foldMaxId, List.foldl_cons]
      exact ih _ u hu'

/-- **C4 counterexample.** The claim fails on both counts. Monotonicity: from
`updateOffset = 10`, folding the single update `updateId = 0` rewinds the
offset to `1 < 10`. Max-plus-one: folding the single update `updateId = -5`
yields offset `0`, not `-5 + 1 = -4`, because the running maximum starts at
`-1`. -/
theorem applyUpdates_offset_counterexample :
    (applyUpdates (BotState.mk mapEmpty mapEmpty 10 1)
      [⟨0, none, none, none⟩]).updateOffset = 1 ∧
    (1 : Int) < 10 ∧
    (applyUpdates (BotState.mk mapEmpty mapEmpty 0 1)
      [⟨-5, none, none, none⟩]).updateOffset = 0 ∧
    (-5 : Int) + 1 ≠ (0 : Int) := by
  refine ⟨rfl, by norm_num, rfl, by norm_num⟩

/-- **C4 (amended).** An empty batch leaves the whole state unchanged; a
non-empty batch sets `updateOffset` to `max(-1, max updateId) + 1` (the
running maximum starts at `-1`); and the offset cannot decrease provided
every update id in the batch is at least the current `updateOffset` (which
holds for Telegram deliveries, where ids are at least the offset used to
poll). -/
theorem applyUpdates_offset_spec (s : BotState) (us : List IncomingUpdate) :
    (us = [] → applyUpdates s us = s) ∧
    (us ≠ [] → (applyUpdates s us).updateOffset = batchMaxId us + 1) ∧
    ((∀ u ∈ us, s.updateOffset ≤ u.updateId) →
      s.updateOffset ≤ (applyUpdates s us).updateOffset) := by
  refine ⟨?_, ?_, ?_⟩
  · intro h
    subst h
    rfl
  · intro hne
    unfold applyUpdates
    rw [if_neg (fun h => hne (List.length_eq_zero.mp h))]
    show (applyUpdatesGo s (-1) us).2 + 1 = batchMaxId us + 1
    rw [applyUpdatesGo_maxId]
    rfl
  · intro hall
    cases us with
    | nil => exact le_refl _
    | cons u rest =>
      unfold applyUpdates
      rw [if_neg (by simp)]
      show s.updateOffset ≤ (applyUpdatesGo s (-1) (u :: rest)).2 + 1
      rw [applyUpdatesGo_maxId]
      have h1 : s.updateOffset ≤ u.updateId :=
        hall u (List.mem_cons_self u rest)
      have h2 : u.updateId ≤ foldMaxId (-1) (u :: rest) :=
        foldMaxId_mem_le (u :: rest) (-1) u (List.mem_cons_self u rest)
      omega

/-- Witness for C4 (amended): batch `[3, 7, 5]` from offset `2` advances the
offset to `8 = max id + 1`. -/
theorem applyUpdates_offset_spec_witness :
    (applyUpdates (BotState.mk mapEmpty mapEmpty 2 1)
      [⟨3, none, none, none⟩, ⟨7, none, none, none⟩,
        ⟨5, none, none, none⟩]).updateOffset =
      batchMaxId [⟨3, none, none, none⟩, ⟨7, none, none, none⟩,
        ⟨5, none, none, none⟩] + 1 ∧
    (2 : Int) ≤ (applyUpdates (BotState.mk mapEmpty mapEmpty 2 1)
      [⟨3, none, none, none⟩, ⟨7, none, none, none⟩,
        ⟨5, none, none, none⟩]).updateOffset :=
  ⟨(applyUpdates_offset_spec (BotState.mk mapEmpty mapEmpty 2 1) _).2.1
      (List.cons_ne_nil _ _),
    (applyUpdates_offset_spec (BotState.mk mapEmpty mapEmpty 2 1) _).2.2
      (by decide)⟩

/-! ## Frame conditions of update folding (C10) -/

/-- For every chat that already existed, all fields other than
`participants` and `title` are preserved. -/
def PreservesChatCore (s s' : BotState) : Prop :=
  ∀ cid ch, s.chats cid = some ch → ∃ ch', s'.chats cid = some ch' ∧
    ch'.poll = ch.poll ∧ ch'.history = ch.history ∧ ch'.seed = ch.seed ∧
    ch'.threadId = ch.threadId ∧ ch'.inviteLink = ch.inviteLink ∧
    ch'.lastSummaryAt = ch.lastSummaryAt

theorem core_refl (s : BotState) : PreservesChatCore s s :=
  fun _ ch h => ⟨ch, h, rfl, rfl, rfl, rfl, rfl, rfl⟩

theorem core_trans {a b c : BotState} (hab : PreservesChatCore a b)
    (hbc : PreservesChatCore b c) : PreservesChatCore a c := by
  intro cid ch h
  obtain ⟨ch1, h1, p1, q1, r1, t1, u1, v1⟩ := hab cid ch h
  obtain ⟨ch2, h2, p2, q2, r2, t2, u2, v2⟩ := hbc cid ch1 h1
  exact ⟨ch2, h2, p2.trans p1, q2.trans q1, r2.trans r1, t2.trans t1,
    u2.trans u1, v2.trans v1⟩

theorem core_mono {s s' : BotState} (h : PreservesChatCore s s') :
    ∀ cid, s.chats cid ≠ none → s'.chats cid ≠ none := by
  intro cid hne
  cases hc : s.chats cid with
  | none => exact absurd hc hne
  | some ch =>
    obtain ⟨ch', hch', _⟩ := h cid ch hc
    simp [hch']

theorem mapInsert_self {V : Type} (m : StrMap V) (k : String) (v : V) :
    mapInsert m k v k = some v := by simp [mapInsert]

theorem mapInsert_other {V : Type} (m : StrMap V) (k : String) (v : V)
    (k' : String) (h : k' ≠ k) : mapInsert m k v k' = m k' := by
  simp [mapInsert, h]

theorem updateChat_of_none (s : BotState) (cid : String)
    (f : ChatState → ChatState) (h : s.chats cid = none) :
    updateChat s cid f = s := by
  unfold updateChat
  rw [h]

theorem updateChat_of_some (s : BotState) (cid : String)
    (f : ChatState → ChatState) (cur : ChatState) (h : s.chats cid = some cur) :
    updateChat s cid f = { s with chats := mapInsert s.chats cid (f cur) } := by
  unfold updateChat
  rw [h]

theorem ensureChat_of_some (s : BotState) (cid : String) (cur : ChatState)
    (h : s.chats cid = some cur) : ensureChat s cid = s := by
  unfold ensureChat
  rw [h]

theorem ensureChat_of_none (s : BotState) (cid : String)
    (h : s.chats cid = none) :
    ensureChat s cid = { s with
      seed := nextSeed s.seed
      chats := mapInsert s.chats cid (emptyChatState s.seed) } := by
  unfold ensureChat
  rw [h]

theorem core_insert (s : BotState) (cid : String) (cur new : ChatState)
    (hc : s.chats cid = some cur) (hpoll : new.poll = cur.poll)
    (hhist : new.history = cur.history) (hseed : new.seed = cur.seed)
    (hthread : new.threadId = cur.threadId)
    (hlink : new.inviteLink = cur.inviteLink)
    (hlast : new.lastSummaryAt = cur.lastSummaryAt) :
    PreservesChatCore s { s with chats := mapInsert s.chats cid new } := by
  intro cid' ch hch
  by_cases hq : cid' = cid
  · subst hq
    have hcur : ch = cur := by
      rw [hch] at hc
      exact Option.some.inj hc
    subst hcur
    exact ⟨new, mapInsert_self _ _ _, hpoll, hhist, hseed, hthread, hlink,
      hlast⟩
  · refine ⟨ch, ?_, rfl, rfl, rfl, rfl, rfl, rfl⟩
    show mapInsert s.chats cid new cid' = some ch
    rw [mapInsert_other _ _ _ _ hq]
    exact hch

theorem updateChat_pollIndex (s : BotState) (cid : String)
    (f : ChatState → ChatState) :
    (updateChat s cid f).pollIndex = s.pollIndex := by
  unfold updateChat
  cases s.chats cid <;> rfl

theorem updateChat_seed (s : BotState) (cid : String)
    (f : ChatState → ChatState) : (updateChat s cid f).seed = s.seed := by
  unfold updateChat
  cases s.chats cid <;> rfl

theorem ensureChat_pollIndex (s : BotState) (cid : String) :
    (ensureChat s cid).pollIndex = s.pollIndex := by
  unfold ensureChat
  cases s.chats cid <;> rfl

theorem ensureChat_core (s : BotState) (cid : String) :
    PreservesChatCore s (ensureChat s cid) := by
  cases hc : s.chats cid with
  | some cur =>
    rw [ensureChat_of_some s cid cur hc]
    exact core_refl s
  | none =>
    rw [ensureChat_of_none s cid hc]
    intro cid' ch hch
    have hq : cid' ≠ cid := by
      intro he
      rw [he, hc] at hch
      exact Option.noConfusion hch
    refine ⟨ch, ?_, rfl, rfl, rfl, rfl, rfl, rfl⟩
    show mapInsert s.chats cid (emptyChatState s.seed) cid' = some ch
    rw [mapInsert_other _ _ _ _ hq]
    exact hch

theorem ensureChat_seed_change (s : BotState) (cid : String)
    (h : (ensureChat s cid).seed ≠ s.seed) :
    s.chats cid = none ∧ (ensureChat s cid).chats cid ≠ none := by
  cases hc : s.chats cid with
  | some cur =>
    rw [ensureChat_of_some s cid cur hc] at h
    exact absurd rfl h
  | none =>
    refine ⟨rfl, ?_⟩
    rw [ensureChat_of_none s cid hc]
    show mapInsert s.chats cid (emptyChatState s.seed) cid ≠ none
    rw [mapInsert_self]
    exact fun hx => Option.noConfusion hx

theorem setChatTitle_pollIndex (s : BotState) (cid : String) (t : String) :
    (setChatTitle s cid t).pollIndex = s.pollIndex :=
  updateChat_pollIndex s cid _

theorem setChatTitle_seed (s : BotState) (cid : String) (t : String) :
    (setChatTitle s cid t).seed = s.seed :=
  updateChat_seed s cid _

theorem setChatTitle_core (s : BotState) (cid : String) (t : String) :
    PreservesChatCore s (setChatTitle s cid t) := by
  unfold setChatTitle
  cases hc : s.chats cid with
  | none =>
    rw [updateChat_of_none s cid _ hc]
    exact core_refl s
  | some cur =>
    rw [updateChat_of_some s cid _ cur hc]
    exact core_insert s cid cur
      (if cur.title = some t then cur else { cur with title := some t }) hc
      (by split <;> rfl) (by split <;> rfl) (by split <;> rfl)
      (by split <;> rfl) (by split <;> rfl) (by split <;> rfl)

theorem applyPollVote_pollIndex (s : BotState) (pv : PollVote) :
    (applyPollVote s pv).pollIndex = s.pollIndex := by
  unfold applyPollVote
  split
  · rfl
  · split
    · rfl
    · split
      · rfl
      · split
        · rfl
        · rfl

theorem applyPollVote_seed (s : BotState) (pv : PollVote) :
    (applyPollVote s pv).seed = s.seed := by
  unfold applyPollVote
  split
  · rfl
  · split
    · rfl
    · split
      · rfl
      · split
        · rfl
        · rfl

theorem applyPollVote_of_hit (s : BotState) (pv : PollVote) (c : String)
    (chat : ChatState) (part : Participant)
    (hidx : s.pollIndex pv.pollId = some c) (hce : c ≠ "")
    (hc : s.chats c = some chat) (hp : pv.participant = some part) :
    applyPollVote s pv = { s with
      chats := mapInsert s.chats c { chat with
        participants :=
          if pv.optionIds.contains 0 then
            upsertParticipant chat.participants part
          else removeParticipant chat.participants part.id } } := by
  unfold applyPollVote
  rw [hidx]
  dsimp only
  rw [if_neg hce, hc]
  dsimp only
  rw [hp]

theorem applyPollVote_core (s : BotState) (pv : PollVote) :
    PreservesChatCore s (applyPollVote s pv) := by
  cases hidx : s.pollIndex pv.pollId with
  | none =>
    have he : applyPollVote s pv = s := by
      unfold applyPollVote
      rw [hidx]
    rw [he]
    exact core_refl s
  | some c =>
    by_cases hce : c = ""
    · have he : applyPollVote s pv = s := by
        unfold applyPollVote
        rw [hidx]
        dsimp only
        rw [if_pos hce]
      rw [he]
      exact core_refl s
    · cases hc : s.chats c with
      | none =>
        have he : applyPollVote s pv = s := by
          unfold applyPollVote
          rw [hidx]
          dsimp only
          rw [if_neg hce, hc]
        rw [he]
        exact core_refl s
      | some chat =>
        cases hp : pv.participant with
        | none =>
          have he : applyPollVote s pv = s := by
            unfold applyPollVote
            rw [hidx]
            dsimp only
            rw [if_neg hce, hc]
            dsimp only
            rw [hp]
          rw [he]
          exact core_refl s
        | some part =>
          rw [applyPollVote_of_hit s pv c chat part hidx hce hc hp]
          exact core_insert s c chat _ hc rfl rfl rfl rfl rfl rfl

theorem applyChatMetadata_pollIndex (s : BotState) (cid : String)
    (ct : ChatType) (title : Option String) :
    (applyChatMetadata s cid ct title).pollIndex = s.pollIndex := by
  unfold applyChatMetadata
  by_cases hg : isGroupChat ct
  · rw [if_pos hg]
    cases title with
    | none => exact ensureChat_pollIndex s cid
    | some t =>
      by_cases ht : t = ""
      · simp only [if_pos ht]
        exact ensureChat_pollIndex s cid
      · simp only [if_neg ht]
        rw [setChatTitle_pollIndex]
        exact ensureChat_pollIndex s cid
  · rw [if_neg hg]

theorem applyChatMetadata_core (s : BotState) (cid : String) (ct : ChatType)
    (title : Option String) :
    PreservesChatCore s (applyChatMetadata s cid ct title) := by
  unfold applyChatMetadata
  by_cases hg : isGroupChat ct
  · rw [if_pos hg]
    cases title with
    | none => exact ensureChat_core s cid
    | some t =>
      by_cases ht : t = ""
      · simp only [if_pos ht]
        exact ensureChat_core s cid
      · simp only [if_neg ht]
        exact core_trans (ensureChat_core s cid)
          (setChatTitle_core (ensureChat s cid) cid t)
  · rw [if_neg hg]
    exact core_refl s

theorem applyChatMetadata_seed_change (s : BotState) (cid : String)
    (ct : ChatType) (title : Option String)
    (h : (applyChatMetadata s cid ct title).seed ≠ s.seed) :
    s.chats cid = none ∧ (applyChatMetadata s cid ct title).chats cid ≠ none ∧
      isGroupChat ct = true := by
  unfold applyChatMetadata at *
  by_cases hg : isGroupChat ct
  · rw [if_pos hg] at h ⊢
    cases title with
    | none =>
      obtain ⟨h1, h2⟩ := ensureChat_seed_change s cid h
      exact ⟨h1, h2, hg⟩
    | some t =>
      by_cases ht : t = ""
      · simp only [if_pos ht] at h ⊢
        obtain ⟨h1, h2⟩ := ensureChat_seed_change s cid h
        exact ⟨h1, h2, hg⟩
      · simp only [if_neg ht] at h ⊢
        rw [setChatTitle_seed] at h
        obtain ⟨h1, h2⟩ := ensureChat_seed_change s cid h
        exact ⟨h1,
          core_mono (setChatTitle_core (ensureChat s cid) cid t) cid h2, hg⟩
  · rw [if_neg hg] at h
    exact absurd rfl h

theorem foldChatSeen_pollIndex (s : BotState) (o : Option ChatSeen) :
    (foldChatSeen s o).pollIndex = s.pollIndex := by
  cases o with
  | none => rfl
  | some cs => exact applyChatMetadata_pollIndex _ _ _ _

theorem foldMessage_pollIndex (s : BotState) (o : Option ChatMessage) :
    (foldMessage s o).pollIndex = s.pollIndex := by
  cases o with
  | none => rfl
  | some msg => exact applyChatMetadata_pollIndex _ _ _ _

theorem foldPollVote_pollIndex (s : BotState) (o : Option PollVote) :
    (foldPollVote s o).pollIndex = s.pollIndex := by
  cases o with
  | none => rfl
  | some pv => exact applyPollVote_pollIndex _ _

theorem foldChatSeen_core (s : BotState) (o : Option ChatSeen) :
    PreservesChatCore s (foldChatSeen s o) := by
  cases o with
  | none => exact core_refl s
  | some cs => exact applyChatMetadata_core _ _ _ _

theorem foldMessage_core (s : BotState) (o : Option ChatMessage) :
    PreservesChatCore s (foldMessage s o) := by
  cases o with
  | none => exact core_refl s
  | some msg => exact applyChatMetadata_core _ _ _ _

theorem foldPollVote_core (s : BotState) (o : Option PollVote) :
    PreservesChatCore s (foldPollVote s o) := by
  cases o with
  | none => exact core_refl s
  | some pv => exact applyPollVote_core _ _

theorem foldPollVote_seed (s : BotState) (o : Option PollVote) :
    (foldPollVote s o).seed = s.seed := by
  cases o with
  | none => rfl
  | some pv => exact applyPollVote_seed _ _

theorem foldChatSeen_seed_change (s : BotState) (o : Option ChatSeen)
    (h : (foldChatSeen s o).seed ≠ s.seed) :
    ∃ cid, s.chats cid = none ∧ (foldChatSeen s o).chats cid ≠ none ∧
      ∃ cs, o = some cs ∧ cs.chatId = cid ∧ isGroupChat cs.chatType = true := by
  cases o with
  | none => exact absurd rfl h
  | some cs =>
    obtain ⟨h1, h2, hg⟩ := applyChatMetadata_seed_change s cs.chatId
      cs.chatType cs.chatTitle h
    exact ⟨cs.chatId, h1, h2, cs, rfl, rfl, hg⟩

theorem foldMessage_seed_change (s : BotState) (o : Option ChatMessage)
    (h : (foldMessage s o).seed ≠ s.seed) :
    ∃ cid, s.chats cid = none ∧ (foldMessage s o).chats cid ≠ none ∧
      ∃ m, o = some m ∧ m.chatId = cid ∧ isGroupChat m.chatType = true := by
  cases o with
  | none => exact absurd rfl h
  | some msg =>
    obtain ⟨h1, h2, hg⟩ := applyChatMetadata_seed_change s msg.chatId
      msg.chatType msg.chatTitle h
    exact ⟨msg.chatId, h1, h2, msg, rfl, rfl, hg⟩

/-- The update facet that can create chat `cid`: a `chatSeen` or `message`
facet naming `cid` with a group-type chat. -/
def mentionsGroupChat (u : IncomingUpdate) (cid : String) : Prop :=
  (∃ cs, u.chatSeen = some cs ∧ cs.chatId = cid ∧
    isGroupChat cs.chatType = true) ∨
  (∃ m, u.message = some m ∧ m.chatId = cid ∧ isGroupChat m.chatType = true)

theorem stepFold_pollIndex (s : BotState) (u : IncomingUpdate) :
    (foldPollVote (foldMessage (foldChatSeen s u.chatSeen) u.message)
      u.pollVote).pollIndex = s.pollIndex := by
  rw [foldPollVote_pollIndex, foldMessage_pollIndex, foldChatSeen_pollIndex]

theorem stepFold_core (s : BotState) (u : IncomingUpdate) :
    PreservesChatCore s
      (foldPollVote (foldMessage (foldChatSeen s u.chatSeen) u.message)
        u.pollVote) :=
  core_trans (core_trans (foldChatSeen_core s u.chatSeen)
      (foldMessage_core (foldChatSeen s u.chatSeen) u.message))
    (foldPollVote_core (foldMessage (foldChatSeen s u.chatSeen) u.message)
      u.pollVote)

theorem stepFold_seed_change (s : BotState) (u : IncomingUpdate)
    (h : (foldPollVote (foldMessage (foldChatSeen s u.chatSeen) u.message)
      u.pollVote).seed ≠ s.seed) :
    ∃ cid, s.chats cid = none ∧
      (foldPollVote (foldMessage (foldChatSeen s u.chatSeen) u.message)
        u.pollVote).chats cid ≠ none ∧
      mentionsGroupChat u cid := by
  have hs3 : (foldPollVote (foldMessage (foldChatSeen s u.chatSeen) u.message)
      u.pollVote).seed =
      (foldMessage (foldChatSeen s u.chatSeen) u.message).seed :=
    foldPollVote_seed _ _
  by_cases h1 : (foldMessage (foldChatSeen s u.chatSeen) u.message).seed =
      (foldChatSeen s u.chatSeen).seed
  · have hne : (foldChatSeen s u.chatSeen).seed ≠ s.seed := by
      rw [hs3, h1] at h
      exact h
    obtain ⟨cid, ha, hb, cs, ho, hcid, hg⟩ :=
      foldChatSeen_seed_change s u.chatSeen hne
    refine ⟨cid, ha, ?_, Or.inl ⟨cs, ho, hcid, hg⟩⟩
    exact core_mono
      (core_trans (foldMessage_core (foldChatSeen s u.chatSeen) u.message)
        (foldPollVote_core (foldMessage (foldChatSeen s u.chatSeen) u.message)
          u.pollVote)) cid hb
  · obtain ⟨cid, ha, hb, m, ho, hcid, hg⟩ :=
      foldMessage_seed_change (foldChatSeen s u.chatSeen) u.message h1
    refine ⟨cid, ?_, ?_, Or.inr ⟨m, ho, hcid, hg⟩⟩
    · cases hcc : s.chats cid with
      | none => rfl
      | some ch =>
        have := core_mono (foldChatSeen_core s u.chatSeen) cid
          (by rw [hcc]; exact fun hx => Option.noConfusion hx)
        exact absurd ha this
    · exact core_mono
        (foldPollVote_core (foldMessage (foldChatSeen s u.chatSeen) u.message)
          u.pollVote) cid hb

theorem applyUpdatesGo_frame :
    ∀ (us : List IncomingUpdate) (s : BotState) (m : Int),
      (applyUpdatesGo s m us).1.pollIndex = s.pollIndex ∧
      PreservesChatCore s (applyUpdatesGo s m us).1 ∧
      ((applyUpdatesGo s m us).1.seed ≠ s.seed →
        ∃ cid, s.chats cid = none ∧
          (applyUpdatesGo s m us).1.chats cid ≠ none ∧
          ∃ u ∈ us, mentionsGroupChat u cid) := by
  intro us
  induction us with
  | nil =>
    intro s m
    exact ⟨rfl, core_refl s, fun h => absurd rfl h⟩
  | cons u rest ih =>
    intro s m
    simp only [applyUpdatesGo]
    obtain ⟨hidx, hcore, hseed⟩ := ih
      (foldPollVote (foldMessage (foldChatSeen s u.chatSeen) u.message)
        u.pollVote)
      (if u.updateId > m then u.updateId else m)
    refine ⟨hidx.trans (stepFold_pollIndex s u), core_trans (stepFold_core s u)
      hcore, ?_⟩
    intro h
    by_cases h1 : (foldPollVote (foldMessage (foldChatSeen s u.chatSeen)
        u.message) u.pollVote).seed = s.seed
    · have h2 := hseed (by rw [h1]; exact h)
      obtain ⟨cid, ha, hb, u', hu', hm⟩ := h2
      refine ⟨cid, ?_, hb, u', List.mem_cons_of_mem u hu', hm⟩
      cases hcc : s.chats cid with
      | none => rfl
      | some ch =>
        have := core_mono (stepFold_core s u) cid
          (by rw [hcc]; exact fun hx => Option.noConfusion hx)
        exact absurd ha this
    · obtain ⟨cid, ha, hb, hm⟩ := stepFold_seed_change s u h1
      exact ⟨cid, ha, core_mono hcore cid hb, u, List.mem_cons_self u rest,
        hm⟩

/-- **C10.** Folding a batch of updates never touches the poll index; every
chat that already existed keeps its `poll`, `history`, `seed`, `threadId`,
`inviteLink` and `lastSummaryAt` (only `participants` and `title` can
differ), and in particular no chat entry is ever removed or reseeded; and
the global seed changes only if some previously-unseen chat id was created
by a group-chat `chatSeen`/`message` facet of the batch. -/
theorem applyUpdates_frame (s : BotState) (us : List IncomingUpdate) :
    (applyUpdates s us).pollIndex = s.pollIndex ∧
    PreservesChatCore s (applyUpdates s us) ∧
    ((applyUpdates s us).seed ≠ s.seed →
      ∃ cid, s.chats cid = none ∧ (applyUpdates s us).chats cid ≠ none ∧
        ∃ u ∈ us, mentionsGroupChat u cid) := by
  obtain ⟨hidx, hcore, hseed⟩ := applyUpdatesGo_frame us s (-1)
  unfold applyUpdates
  by_cases h : us.length = 0
  · rw [if_pos h]
    exact ⟨hidx, hcore, hseed⟩
  · rw [if_neg h]
    exact ⟨hidx, hcore, hseed⟩

/-- Witness for C10: a yes-vote batch leaves the poll index alone and keeps
the voted chat's core fields. -/
theorem applyUpdates_frame_witness :
    (applyUpdates
      (BotState.mk (mapInsert mapEmpty "100" (emptyChatState 5))
        (mapInsert mapEmpty "p" "100") 0 9)
      [⟨3, some ⟨"p", some ⟨7, "bob", none, none⟩, [0]⟩, none, none⟩]).pollIndex
      = (BotState.mk (mapInsert mapEmpty "100" (emptyChatState 5))
        (mapInsert mapEmpty "p" "100") 0 9).pollIndex ∧
    ∃ ch', (applyUpdates
      (BotState.mk (mapInsert mapEmpty "100" (emptyChatState 5))
        (mapInsert mapEmpty "p" "100") 0 9)
      [⟨3, some ⟨"p", some ⟨7, "bob", none, none⟩, [0]⟩, none, none⟩]).chats
        "100" = some ch' ∧ ch'.poll = none ∧ ch'.seed = 5 := by
  have h := applyUpdates_frame
    (BotState.mk (mapInsert mapEmpty "100" (emptyChatState 5))
      (mapInsert mapEmpty "p" "100") 0 9)
    [⟨3, some ⟨"p", some ⟨7, "bob", none, none⟩, [0]⟩, none, none⟩]
  refine ⟨h.1, ?_⟩
  obtain ⟨ch', hch', hpoll, _, hseed, _⟩ := h.2.1 "100" (emptyChatState 5) rfl
  exact ⟨ch', hch', hpoll, hseed⟩

/-! ## Poll-index invariant (C6) -/

/-- The poll id of the chat's open poll, when the chat exists and a poll is
open. -/
def chatPollId (s : BotState) (cid : String) : Option String :=
  (s.chats cid).bind (fun ch => ch.poll.map PollState.pollId)

/-- The C6 invariant: `pollIndex` maps `pid` to `cid` exactly when chat
`cid` exists and its open poll carries `pid`. -/
def PollIndexInv (s : BotState) : Prop :=
  ∀ pid cid, s.pollIndex pid = some cid ↔ chatPollId s cid = some pid

/-- Auxiliary invariant: no open poll carries the empty-string id (JS
truthiness in `clearPoll`/`startPoll` would skip index removal for it). -/
def PollIdsNonEmpty (s : BotState) : Prop :=
  ∀ cid, chatPollId s cid ≠ some ""

/-- States reachable from empty through the state-transition functions and
update folding, with arbitrary arguments — the reading of the C6 claim. -/
inductive Reachable : BotState → Prop where
  | empty (seed : Int) : Reachable (emptyState seed)
  | ensure (s : BotState) (cid : String) :
      Reachable s → Reachable (ensureChat s cid)
  | start (s : BotState) (cid : String) (poll : PollState) :
      Reachable s → Reachable (startPoll s cid poll)
  | summary (s : BotState) (cid : String) (pairs : List Pairing) (seed : Int)
      (date : String) :
      Reachable s → Reachable (applySummary s cid pairs seed date)
  | finish (s : BotState) (cid : String) :
      Reachable s → Reachable (finishPoll s cid)
  | thread (s : BotState) (cid : String) (t : Option Int) :
      Reachable s → Reachable (setThreadId s cid t)
  | title (s : BotState) (cid : String) (t : String) :
      Reachable s → Reachable (setChatTitle s cid t)
  | link (s : BotState) (cid : String) (l : Option String) :
      Reachable s → Reachable (setChatInviteLink s cid l)
  | fold (s : BotState) (us : List IncomingUpdate) :
      Reachable s → Reachable (applyUpdates s us)

/-- Reachability restricted so that every `startPoll` step targets an
existing chat, carries a non-empty poll id, and a poll id not already
indexed for a different chat — the conditions under which the code actually
maintains the C6 invariant. -/
inductive GoodReachable : BotState → Prop where
  | empty (seed : Int) : GoodReachable (emptyState seed)
  | ensure (s : BotState) (cid : String) :
      GoodReachable s → GoodReachable (ensureChat s cid)
  | start (s : BotState) (cid : String) (poll : PollState) :
      GoodReachable s →
      s.chats cid ≠ none →
      poll.pollId ≠ "" →
      (∀ c', s.pollIndex poll.pollId = some c' → c' = cid) →
      GoodReachable (startPoll s cid poll)
  | summary (s : BotState) (cid : String) (pairs : List Pairing) (seed : Int)
      (date : String) :
      GoodReachable s → GoodReachable (applySummary s cid pairs seed date)
  | finish (s : BotState) (cid : String) :
      GoodReachable s → GoodReachable (finishPoll s cid)
  | thread (s : BotState) (cid : String) (t : Option Int) :
      GoodReachable s → GoodReachable (setThreadId s cid t)
  | title (s : BotState) (cid : String) (t : String) :
      GoodReachable s → GoodReachable (setChatTitle s cid t)
  | link (s : BotState) (cid : String) (l : Option String) :
      GoodReachable s → GoodReachable (setChatInviteLink s cid l)
  | fold (s : BotState) (us : List IncomingUpdate) :
      GoodReachable s → GoodReachable (applyUpdates s us)

/-- **C6 counterexample.** The invariant is not maintained across arbitrary
uses of the transition functions: calling `startPoll` for a chat id that has
no chat entry (reachable in one step from the empty state) produces a state
whose poll index maps `"p"` to `"c"` although chat `"c"` does not exist. -/
theorem pollIndexInv_counterexample :
    Reachable (startPoll (emptyState 1) "c" ⟨"p", 1, "c", "2026-01-12", none⟩) ∧
    (startPoll (emptyState 1) "c"
      ⟨"p", 1, "c", "2026-01-12", none⟩).pollIndex "p" = some "c" ∧
    (startPoll (emptyState 1) "c"
      ⟨"p", 1, "c", "2026-01-12", none⟩).chats "c" = none :=
  ⟨Reachable.start _ _ _ (Reachable.empty 1), rfl, rfl⟩

theorem startPoll_eq_nopoll (s : BotState) (cid : String) (poll : PollState)
    (cur : ChatState) (hc : s.chats cid = some cur) (hp : cur.poll = none) :
    startPoll s cid poll = { s with
      chats := mapInsert s.chats cid
        { cur with poll := some poll, participants := mapEmpty }
      pollIndex := mapInsert s.pollIndex poll.pollId cid } := by
  have hb : (s.chats cid).bind (fun ch => ch.poll.map PollState.pollId)
      = none := by
    rw [hc]
    simp [hp]
  unfold startPoll
  rw [hb]
  simp only [updateChat, hc]

theorem startPoll_eq_poll (s : BotState) (cid : String) (poll : PollState)
    (cur : ChatState) (p : PollState) (hc : s.chats cid = some cur)
    (hp : cur.poll = some p) (hne : p.pollId ≠ "") :
    startPoll s cid poll = { s with
      chats := mapInsert s.chats cid
        { cur with poll := some poll, participants := mapEmpty }
      pollIndex := mapInsert (mapRemove s.pollIndex p.pollId) poll.pollId
        cid } := by
  have hb : (s.chats cid).bind (fun ch => ch.poll.map PollState.pollId)
      = some p.pollId := by
    rw [hc]
    simp [hp]
  unfold startPoll
  rw [hb]
  simp only [if_neg hne, removePollIndex, updateChat, hc]

theorem clearPoll_eq_missing (s : BotState) (cid : String)
    (f : ChatState → ChatState) (hc : s.chats cid = none) :
    clearPoll s cid f = s := by
  unfold clearPoll
  rw [hc]

theorem clearPoll_eq_nopoll (s : BotState) (cid : String)
    (f : ChatState → ChatState) (cur : ChatState)
    (hc : s.chats cid = some cur) (hp : cur.poll = none) :
    clearPoll s cid f =
      { s with chats := mapInsert s.chats cid (f cur) } := by
  unfold clearPoll
  rw [hc]
  simp only [hp, Option.map, updateChat, hc]

theorem clearPoll_eq_poll (s : BotState) (cid : String)
    (f : ChatState → ChatState) (cur : ChatState) (p : PollState)
    (hc : s.chats cid = some cur) (hp : cur.poll = some p)
    (hne : p.pollId ≠ "") :
    clearPoll s cid f = { s with
      chats := mapInsert s.chats cid (f cur)
      pollIndex := mapRemove s.pollIndex p.pollId } := by
  unfold clearPoll
  rw [hc]
  simp only [hp, Option.map, if_neg hne, removePollIndex, updateChat, hc]

theorem chatPollId_of_some (s : BotState) (cid : String) (cur : ChatState)
    (hc : s.chats cid = some cur) :
    chatPollId s cid = cur.poll.map PollState.pollId := by
  unfold chatPollId
  rw [hc]
  rfl

/-- Invariant transfer when every chat's open-poll id is unchanged and the
poll index is unchanged. -/
theorem inv_transfer (s s' : BotState)
    (hpi : s'.pollIndex = s.pollIndex)
    (hcp : ∀ cid, chatPollId s' cid = chatPollId s cid)
    (h1 : PollIndexInv s) (h2 : PollIdsNonEmpty s) :
    PollIndexInv s' ∧ PollIdsNonEmpty s' := by
  constructor
  · intro pid cid
    rw [hpi, hcp cid]
    exact h1 pid cid
  · intro cid
    rw [hcp cid]
    exact h2 cid

theorem inv_emptyState (seed : Int) :
    PollIndexInv (emptyState seed) ∧ PollIdsNonEmpty (emptyState seed) := by
  constructor
  · intro pid cid
    constructor
    · intro h
      exact Option.noConfusion h
    · intro h
      simp [chatPollId, emptyState, mapEmpty] at h
  · intro cid h
    simp [chatPollId, emptyState, mapEmpty] at h

theorem inv_ensureChat (s : BotState) (cid : String)
    (h1 : PollIndexInv s) (h2 : PollIdsNonEmpty s) :
    PollIndexInv (ensureChat s cid) ∧ PollIdsNonEmpty (ensureChat s cid) := by
  cases hc : s.chats cid with
  | some cur =>
    rw [ensureChat_of_some s cid cur hc]
    exact ⟨h1, h2⟩
  | none =>
    rw [ensureChat_of_none s cid hc]
    refine inv_transfer s _ rfl ?_ h1 h2
    intro cid'
    by_cases hq : cid' = cid
    · subst hq
      unfold chatPollId
      show (mapInsert s.chats cid' (emptyChatState s.seed) cid').bind _ = _
      rw [mapInsert_self, hc]
      rfl
    · unfold chatPollId
      show (mapInsert s.chats cid (emptyChatState s.seed) cid').bind _ = _
      rw [mapInsert_other _ _ _ _ hq]

theorem inv_updateChat (s : BotState) (cid : String) (f : ChatState → ChatState)
    (hf : ∀ ch, (f ch).poll = ch.poll)
    (h1 : PollIndexInv s) (h2 : PollIdsNonEmpty s) :
    PollIndexInv (updateChat s cid f) ∧ PollIdsNonEmpty (updateChat s cid f) := by
  cases hc : s.chats cid with
  | none =>
    rw [updateChat_of_none s cid f hc]
    exact ⟨h1, h2⟩
  | some cur =>
    rw [updateChat_of_some s cid f cur hc]
    refine inv_transfer s _ rfl ?_ h1 h2
    intro cid'
    by_cases hq : cid' = cid
    · subst hq
      unfold chatPollId
      show (mapInsert s.chats cid' (f cur) cid').bind _ = _
      rw [mapInsert_self, hc]
      show (f cur).poll.map _ = cur.poll.map _
      rw [hf cur]
    · unfold chatPollId
      show (mapInsert s.chats cid (f cur) cid').bind _ = _
      rw [mapInsert_other _ _ _ _ hq]

theorem inv_setThreadId (s : BotState) (cid : String) (t : Option Int)
    (h1 : PollIndexInv s) (h2 : PollIdsNonEmpty s) :
    PollIndexInv (setThreadId s cid t) ∧ PollIdsNonEmpty (setThreadId s cid t) :=
  inv_updateChat s cid _ (fun _ => rfl) h1 h2

theorem inv_setChatTitle (s : BotState) (cid : String) (t : String)
    (h1 : PollIndexInv s) (h2 : PollIdsNonEmpty s) :
    PollIndexInv (setChatTitle s cid t) ∧
      PollIdsNonEmpty (setChatTitle s cid t) :=
  inv_updateChat s cid _ (fun ch => by split <;> rfl) h1 h2

theorem inv_setChatInviteLink (s : BotState) (cid : String) (l : Option String)
    (h1 : PollIndexInv s) (h2 : PollIdsNonEmpty s) :
    PollIndexInv (setChatInviteLink s cid l) ∧
      PollIdsNonEmpty (setChatInviteLink s cid l) :=
  inv_updateChat s cid _ (fun ch => by split <;> rfl) h1 h2

theorem inv_clearPoll (s : BotState) (cid : String) (f : ChatState → ChatState)
    (hf : ∀ ch, (f ch).poll = none)
    (h1 : PollIndexInv s) (h2 : PollIdsNonEmpty s) :
    PollIndexInv (clearPoll s cid f) ∧ PollIdsNonEmpty (clearPoll s cid f) := by
  cases hc : s.chats cid with
  | none =>
    rw [clearPoll_eq_missing s cid f hc]
    exact ⟨h1, h2⟩
  | some cur =>
    have hcpnew : ∀ (pi : StrMap String) (off sd : Int) (cid' : String),
        chatPollId (BotState.mk (mapInsert s.chats cid (f cur)) pi off sd)
          cid' = if cid' = cid then none else chatPollId s cid' := by
      intro pi off sd cid'
      by_cases hq : cid' = cid
      · subst hq
        rw [if_pos rfl]
        unfold chatPollId
        show (mapInsert s.chats cid' (f cur) cid').bind _ = _
        rw [mapInsert_self]
        show (f cur).poll.map _ = _
        rw [hf cur]
        rfl
      · rw [if_neg hq]
        unfold chatPollId
        show (mapInsert s.chats cid (f cur) cid').bind _ = _
        rw [mapInsert_other _ _ _ _ hq]
    cases hp : cur.poll with
    | none =>
      rw [clearPoll_eq_nopoll s cid f cur hc hp]
      refine inv_transfer s _ rfl ?_ h1 h2
      intro cid'
      rw [hcpnew s.pollIndex s.updateOffset s.seed cid']
      by_cases hq : cid' = cid
      · subst hq
        rw [if_pos rfl, chatPollId_of_some s cid' cur hc, hp]
        rfl
      · rw [if_neg hq]
    | some p =>
      have hpcur : chatPollId s cid = some p.pollId := by
        rw [chatPollId_of_some s cid cur hc, hp]
        rfl
      have hne : p.pollId ≠ "" := by
        intro he
        exact h2 cid (by rw [hpcur, he])
      rw [clearPoll_eq_poll s cid f cur p hc hp hne]
      constructor
      · intro pid cid'
        show mapRemove s.pollIndex p.pollId pid = some cid' ↔ _
        rw [hcpnew (mapRemove s.pollIndex p.pollId) s.updateOffset s.seed cid']
        unfold mapRemove
        by_cases hpe : pid = p.pollId
        · rw [if_pos hpe]
          constructor
          · intro h
            exact Option.noConfusion h
          · intro h
            by_cases hq : cid' = cid
            · rw [if_pos hq] at h
              exact Option.noConfusion h
            · rw [if_neg hq] at h
              have hidx := (h1 pid cid').mpr h
              rw [hpe] at hidx
              have h0 := (h1 p.pollId cid).mpr hpcur
              rw [hidx] at h0
              exact absurd (Option.some.inj h0) hq
        · rw [if_neg hpe]
          by_cases hq : cid' = cid
          · subst hq
            rw [if_pos rfl]
            constructor
            · intro h
              have := (h1 pid cid').mp h
              rw [hpcur] at this
              exact absurd (Option.some.inj this) (fun he => hpe he.symm)
            · intro h
              exact Option.noConfusion h
          · rw [if_neg hq]
            exact h1 pid cid'
      · intro cid'
        rw [hcpnew (mapRemove s.pollIndex p.pollId) s.updateOffset s.seed cid']
        by_cases hq : cid' = cid
        · rw [if_pos hq]
          exact fun h => Option.noConfusion h
        · rw [if_neg hq]
          exact h2 cid'

theorem inv_applySummary (s : BotState) (cid : String) (pairs : List Pairing)
    (seed : Int) (date : String)
    (h1 : PollIndexInv s) (h2 : PollIdsNonEmpty s) :
    PollIndexInv (applySummary s cid pairs seed date) ∧
      PollIdsNonEmpty (applySummary s cid pairs seed date) :=
  inv_clearPoll s cid _ (fun _ => rfl) h1 h2

theorem inv_finishPoll (s : BotState) (cid : String)
    (h1 : PollIndexInv s) (h2 : PollIdsNonEmpty s) :
    PollIndexInv (finishPoll s cid) ∧ PollIdsNonEmpty (finishPoll s cid) :=
  inv_clearPoll s cid _ (fun _ => rfl) h1 h2

theorem inv_startPoll (s : BotState) (cid : String) (poll : PollState)
    (hchat : s.chats cid ≠ none) (hpne : poll.pollId ≠ "")
    (hfresh : ∀ c', s.pollIndex poll.pollId = some c' → c' = cid)
    (h1 : PollIndexInv s) (h2 : PollIdsNonEmpty s) :
    PollIndexInv (startPoll s cid poll) ∧
      PollIdsNonEmpty (startPoll s cid poll) := by
  cases hc : s.chats cid with
  | none => exact absurd hc hchat
  | some cur =>
    have hcpnew : ∀ (pi : StrMap String) (off sd : Int) (cid' : String),
        chatPollId (BotState.mk (mapInsert s.chats cid
          { cur with poll := some poll, participants := mapEmpty }) pi off sd)
          cid' =
        if cid' = cid then some poll.pollId else chatPollId s cid' := by
      intro pi off sd cid'
      by_cases hq : cid' = cid
      · subst hq
        rw [if_pos rfl]
        unfold chatPollId
        show (mapInsert s.chats cid' _ cid').bind _ = _
        rw [mapInsert_self]
        rfl
      · rw [if_neg hq]
        unfold chatPollId
        show (mapInsert s.chats cid _ cid').bind _ = _
        rw [mapInsert_other _ _ _ _ hq]
    cases hp : cur.poll with
    | none =>
      rw [startPoll_eq_nopoll s cid poll cur hc hp]
      constructor
      · intro pid cid'
        show mapInsert s.pollIndex poll.pollId cid pid = some cid' ↔ _
        rw [hcpnew _ _ _ cid']
        unfold mapInsert
        by_cases hpe : pid = poll.pollId
        · rw [if_pos hpe]
          constructor
          · intro h
            have hcc : cid' = cid := (Option.some.inj h).symm
            rw [if_pos hcc, hpe]
          · intro h
            by_cases hq : cid' = cid
            · rw [hq]
            · rw [if_neg hq] at h
              have hidx := (h1 pid cid').mpr h
              rw [hpe] at hidx
              exact absurd (hfresh cid' hidx) hq
        · rw [if_neg hpe]
          by_cases hq : cid' = cid
          · rw [if_pos hq]
            constructor
            · intro h
              have hcp := (h1 pid cid').mp h
              rw [hq, chatPollId_of_some s cid cur hc, hp] at hcp
              exact Option.noConfusion hcp
            · intro h
              exact absurd (Option.some.inj h).symm hpe
          · rw [if_neg hq]
            exact h1 pid cid'
      · intro cid'
        rw [hcpnew _ _ _ cid']
        by_cases hq : cid' = cid
        · rw [if_pos hq]
          intro h
          exact hpne (Option.some.inj h)
        · rw [if_neg hq]
          exact h2 cid'
    | some p =>
      have hpcur : chatPollId s cid = some p.pollId := by
        rw [chatPollId_of_some s cid cur hc, hp]
        rfl
      have hne : p.pollId ≠ "" := fun he => h2 cid (by rw [hpcur, he])
      rw [startPoll_eq_poll s cid poll cur p hc hp hne]
      constructor
      · intro pid cid'
        show mapInsert (mapRemove s.pollIndex p.pollId) poll.pollId cid pid
          = some cid' ↔ _
        rw [hcpnew _ _ _ cid']
        unfold mapInsert mapRemove
        by_cases hpe : pid = poll.pollId
        · rw [if_pos hpe]
          constructor
          · intro h
            have hcc : cid' = cid := (Option.some.inj h).symm
            rw [if_pos hcc, hpe]
          · intro h
            by_cases hq : cid' = cid
            · rw [hq]
            · rw [if_neg hq] at h
              have hidx := (h1 pid cid').mpr h
              rw [hpe] at hidx
              exact absurd (hfresh cid' hidx) hq
        · rw [if_neg hpe]
          by_cases hp2 : pid = p.pollId
          · rw [if_pos hp2]
            constructor
            · intro h
              exact Option.noConfusion h
            · intro h
              by_cases hq : cid' = cid
              · rw [if_pos hq] at h
                exact absurd (Option.some.inj h).symm hpe
              · rw [if_neg hq] at h
                have hidx := (h1 pid cid').mpr h
                rw [hp2] at hidx
                have h0 := (h1 p.pollId cid).mpr hpcur
                rw [hidx] at h0
                exact absurd (Option.some.inj h0) hq
          · rw [if_neg hp2]
            by_cases hq : cid' = cid
            · rw [if_pos hq]
              constructor
              · intro h
                have hcp := (h1 pid cid').mp h
                rw [hq, hpcur] at hcp
                exact absurd (Option.some.inj hcp) (fun he => hp2 he.symm)
              · intro h
                exact absurd (Option.some.inj h).symm hpe
            · rw [if_neg hq]
              exact h1 pid cid'
      · intro cid'
        rw [hcpnew _ _ _ cid']
        by_cases hq : cid' = cid
        · rw [if_pos hq]
          intro h
          exact hpne (Option.some.inj h)
        · rw [if_neg hq]
          exact h2 cid'

/-- Chats that the transition created (absent before, present after) carry
no open poll. -/
def NewChatsPollNone (s s' : BotState) : Prop :=
  ∀ cid ch', s.chats cid = none → s'.chats cid = some ch' → ch'.poll = none

theorem newpoll_refl (s : BotState) : NewChatsPollNone s s := by
  intro cid ch' hn hs
  rw [hn] at hs
  exact Option.noConfusion hs

theorem newpoll_compose {a b c : BotState} (hab : NewChatsPollNone a b)
    (hbc : NewChatsPollNone b c) (hcore : PreservesChatCore b c) :
    NewChatsPollNone a c := by
  intro cid ch' hn hs
  cases hb : b.chats cid with
  | none => exact hbc cid ch' hb hs
  | some ch1 =>
    have h1 := hab cid ch1 hn hb
    obtain ⟨ch2, hch2, hpoll, _⟩ := hcore cid ch1 hb
    rw [hs] at hch2
    have he := Option.some.inj hch2
    rw [he, hpoll, h1]

theorem newpoll_ensureChat (s : BotState) (cid0 : String) :
    NewChatsPollNone s (ensureChat s cid0) := by
  intro cid ch' hn hs
  cases hc : s.chats cid0 with
  | some cur =>
    rw [ensureChat_of_some s cid0 cur hc, hn] at hs
    exact Option.noConfusion hs
  | none =>
    rw [ensureChat_of_none s cid0 hc] at hs
    have hs' : mapInsert s.chats cid0 (emptyChatState s.seed) cid = some ch' :=
      hs
    by_cases hq : cid = cid0
    · subst hq
      rw [mapInsert_self] at hs'
      rw [← Option.some.inj hs']
      rfl
    · rw [mapInsert_other _ _ _ _ hq, hn] at hs'
      exact Option.noConfusion hs'

theorem newpoll_updateChat (s : BotState) (cid0 : String)
    (f : ChatState → ChatState) : NewChatsPollNone s (updateChat s cid0 f) := by
  intro cid ch' hn hs
  cases hc : s.chats cid0 with
  | none =>
    rw [updateChat_of_none s cid0 f hc, hn] at hs
    exact Option.noConfusion hs
  | some cur =>
    rw [updateChat_of_some s cid0 f cur hc] at hs
    have hs' : mapInsert s.chats cid0 (f cur) cid = some ch' := hs
    by_cases hq : cid = cid0
    · subst hq
      rw [hn] at hc
      exact Option.noConfusion hc
    · rw [mapInsert_other _ _ _ _ hq, hn] at hs'
      exact Option.noConfusion hs'

theorem newpoll_applyPollVote (s : BotState) (pv : PollVote) :
    NewChatsPollNone s (applyPollVote s pv) := by
  cases hidx : s.pollIndex pv.pollId with
  | none =>
    have he : applyPollVote s pv = s := by
      unfold applyPollVote
      rw [hidx]
    rw [he]
    exact newpoll_refl s
  | some c =>
    by_cases hce : c = ""
    · have he : applyPollVote s pv = s := by
        unfold applyPollVote
        rw [hidx]
        dsimp only
        rw [if_pos hce]
      rw [he]
      exact newpoll_refl s
    · cases hc : s.chats c with
      | none =>
        have he : applyPollVote s pv = s := by
          unfold applyPollVote
          rw [hidx]
          dsimp only
          rw [if_neg hce, hc]
        rw [he]
        exact newpoll_refl s
      | some chat =>
        cases hp : pv.participant with
        | none =>
          have he : applyPollVote s pv = s := by
            unfold applyPollVote
            rw [hidx]
            dsimp only
            rw [if_neg hce, hc]
            dsimp only
            rw [hp]
          rw [he]
          exact newpoll_refl s
        | some part =>
          rw [applyPollVote_of_hit s pv c chat part hidx hce hc hp]
          intro cid ch' hn hs
          have hs' : mapInsert s.chats c _ cid = some ch' := hs
          by_cases hq : cid = c
          · subst hq
            rw [hn] at hc
            exact Option.noConfusion hc
          · rw [mapInsert_other _ _ _ _ hq, hn] at hs'
            exact Option.noConfusion hs'

theorem newpoll_applyChatMetadata (s : BotState) (cid : String)
    (ct : ChatType) (title : Option String) :
    NewChatsPollNone s (applyChatMetadata s cid ct title) := by
  unfold applyChatMetadata
  by_cases hg : isGroupChat ct
  · rw [if_pos hg]
    cases title with
    | none => exact newpoll_ensureChat s cid
    | some t =>
      by_cases ht : t = ""
      · simp only [if_pos ht]
        exact newpoll_ensureChat s cid
      · simp only [if_neg ht]
        exact newpoll_compose (newpoll_ensureChat s cid)
          (newpoll_updateChat (ensureChat s cid) cid _)
          (setChatTitle_core (ensureChat s cid) cid t)
  · rw [if_neg hg]
    exact newpoll_refl s

theorem newpoll_foldChatSeen (s : BotState) (o : Option ChatSeen) :
    NewChatsPollNone s (foldChatSeen s o) := by
  cases o with
  | none => exact newpoll_refl s
  | some cs => exact newpoll_applyChatMetadata _ _ _ _

theorem newpoll_foldMessage (s : BotState) (o : Option ChatMessage) :
    NewChatsPollNone s (foldMessage s o) := by
  cases o with
  | none => exact newpoll_refl s
  | some msg => exact newpoll_applyChatMetadata _ _ _ _

theorem newpoll_foldPollVote (s : BotState) (o : Option PollVote) :
    NewChatsPollNone s (foldPollVote s o) := by
  cases o with
  | none => exact newpoll_refl s
  | some pv => exact newpoll_applyPollVote _ _

theorem newpoll_stepFold (s : BotState) (u : IncomingUpdate) :
    NewChatsPollNone s
      (foldPollVote (foldMessage (foldChatSeen s u.chatSeen) u.message)
        u.pollVote) :=
  newpoll_compose
    (newpoll_compose (newpoll_foldChatSeen s u.chatSeen)
      (newpoll_foldMessage (foldChatSeen s u.chatSeen) u.message)
      (foldMessage_core (foldChatSeen s u.chatSeen) u.message))
    (newpoll_foldPollVote (foldMessage (foldChatSeen s u.chatSeen) u.message)
      u.pollVote)
    (foldPollVote_core (foldMessage (foldChatSeen s u.chatSeen) u.message)
      u.pollVote)

theorem newpoll_applyUpdatesGo :
    ∀ (us : List IncomingUpdate) (s : BotState) (m : Int),
      NewChatsPollNone s (applyUpdatesGo s m us).1 := by
  intro us
  induction us with
  | nil => intro s m; exact newpoll_refl s
  | cons u rest ih =>
    intro s m
    simp only [applyUpdatesGo]
    exact newpoll_compose (newpoll_stepFold s u)
      (ih _ _)
      (applyUpdatesGo_frame rest _ _).2.1

theorem inv_applyUpdates (s : BotState) (us : List IncomingUpdate)
    (h1 : PollIndexInv s) (h2 : PollIdsNonEmpty s) :
    PollIndexInv (applyUpdates s us) ∧ PollIdsNonEmpty (applyUpdates s us) := by
  obtain ⟨hidx, hcore, _⟩ := applyUpdatesGo_frame us s (-1)
  have hnew := newpoll_applyUpdatesGo us s (-1)
  have hsplit : applyUpdates s us = (applyUpdatesGo s (-1) us).1 ∨
      applyUpdates s us = { (applyUpdatesGo s (-1) us).1 with
        updateOffset := (applyUpdatesGo s (-1) us).2 + 1 } := by
    unfold applyUpdates
    by_cases h : us.length = 0
    · rw [if_pos h]
      exact Or.inl rfl
    · rw [if_neg h]
      exact Or.inr rfl
  have hchats : (applyUpdates s us).chats = (applyUpdatesGo s (-1) us).1.chats := by
    rcases hsplit with h | h <;> rw [h]
  have hpi : (applyUpdates s us).pollIndex = s.pollIndex := by
    rcases hsplit with h | h <;> rw [h] <;> exact hidx
  have hcp : ∀ cid, chatPollId (applyUpdates s us) cid = chatPollId s cid := by
    intro cid
    have hcp0 : chatPollId (applyUpdates s us) cid =
        chatPollId (applyUpdatesGo s (-1) us).1 cid := by
      unfold chatPollId
      rw [hchats]
    rw [hcp0]
    cases hc : s.chats cid with
    | some ch =>
      obtain ⟨ch', hch', hpoll, _⟩ := hcore cid ch hc
      rw [chatPollId_of_some _ cid ch' hch', chatPollId_of_some s cid ch hc,
        hpoll]
    | none =>
      cases hc' : (applyUpdatesGo s (-1) us).1.chats cid with
      | none =>
        unfold chatPollId
        rw [hc, hc']
      | some ch' =>
        have hp := hnew cid ch' hc hc'
        rw [chatPollId_of_some _ cid ch' hc', hp]
        unfold chatPollId
        rw [hc]
        rfl
  exact inv_transfer s _ hpi hcp h1 h2

theorem goodReachable_inv (s : BotState) (h : GoodReachable s) :
    PollIndexInv s ∧ PollIdsNonEmpty s := by
  induction h with
  | empty seed => exact inv_emptyState seed
  | ensure s cid _ ih => exact inv_ensureChat s cid ih.1 ih.2
  | start s cid poll _ hchat hpne hfresh ih =>
    exact inv_startPoll s cid poll hchat hpne hfresh ih.1 ih.2
  | summary s cid pairs seed date _ ih =>
    exact inv_applySummary s cid pairs seed date ih.1 ih.2
  | finish s cid _ ih => exact inv_finishPoll s cid ih.1 ih.2
  | thread s cid t _ ih => exact inv_setThreadId s cid t ih.1 ih.2
  | title s cid t _ ih => exact inv_setChatTitle s cid t ih.1 ih.2
  | link s cid l _ ih => exact inv_setChatInviteLink s cid l ih.1 ih.2
  | fold s us _ ih => exact inv_applyUpdates s us ih.1 ih.2

/-- **C6 (amended).** In every state reachable from the empty state through
the state-transition functions and update folding — with every `startPoll`
step applied to an existing chat, with a non-empty poll id, and with a poll
id not already indexed for a different chat — the poll index maps `pid` to
`cid` if and only if chat `cid` exists and its `poll` field is non-null with
that same `pid` (expressed via `chatPollId`). -/
theorem pollIndexInv_of_goodReachable (s : BotState) (h : GoodReachable s) :
    ∀ pid cid, s.pollIndex pid = some cid ↔ chatPollId s cid = some pid :=
  (goodReachable_inv s h).1

/-- Witness for C6 (amended): a poll started in an ensured chat. -/
theorem pollIndexInv_witness :
    (startPoll (ensureChat (emptyState 1) "100") "100"
      ⟨"p", 1, "100", "2026-01-12", none⟩).pollIndex "p" = some "100" ↔
    chatPollId (startPoll (ensureChat (emptyState 1) "100") "100"
      ⟨"p", 1, "100", "2026-01-12", none⟩) "100" = some "p" :=
  pollIndexInv_of_goodReachable _
    (GoodReachable.start _ _ _
      (GoodReachable.ensure _ _ (GoodReachable.empty 1))
      (fun h => Option.noConfusion h) (by decide)
      (fun _ h => Option.noConfusion h)) "p" "100"

/-! ## Stop-poll error classification (`text.ts`, `actions.ts`) -/

/-- `stopPollClosedMessageFragments` from `text.ts`. -/
def stopPollClosedMessageFragments : List String :=
  ["poll has already been closed", "poll to stop not found"]

/-- JS `String.prototype.toLowerCase()` (ASCII model, character-wise). -/
def jsToLower (s : String) : String := String.mk (s.toList.map Char.toLower)

/-- Does `cand` start with `needle`? -/
def headMatches : List Char → List Char → Bool
  | [], _ => true
  | _ :: _, [] => false
  | a :: as, b :: bs => (a = b) && headMatches as bs

/-- Does `hay` contain `needle` as a contiguous run? -/
def subListSearch (needle : List Char) : List Char → Bool
  | [] => headMatches needle []
  | b :: bs => headMatches needle (b :: bs) || subListSearch needle bs

/-- JS `haystack.includes(needle)`. -/
def strIncludes (hay frag : String) : Bool := subListSearch frag.toList hay.toList

/-- `isPollAlreadyClosedMessage` from `actions.ts`. -/
def isPollAlreadyClosedMessage (message : String) : Bool :=
  stopPollClosedMessageFragments.any
    (fun fragment => strIncludes (jsToLower message) fragment)

/-- `TelegramError` (`telegram.ts`): all API-error fields are optional. -/
inductive TelegramError where
  | apiError (description : Option String) (errorCode : Option Int)
      (method : Option String) (message : Option String)
  | networkError (message : String)
deriving DecidableEq

/-- JS `a || b || ""` on `string | undefined` operands. -/
def jsOrElse (a b : Option String) : String :=
  if a.getD "" ≠ "" then a.getD "" else b.getD ""

/-- `isPollAlreadyClosed` from `actions.ts`. -/
def isPollAlreadyClosed : TelegramError → Bool
  | .apiError desc code method msg =>
    if method ≠ some "stopPoll" ∨ code ≠ some 400 then false
    else isPollAlreadyClosedMessage (jsOrElse desc msg)
  | .networkError _ => false

/-- `StopPollOutcome`. -/
inductive StopPollOutcome where
  | stopped | alreadyClosed
deriving DecidableEq

/-- `stopPollSafe` from `actions.ts`: the `telegram.stopPoll` effect result
is modelled as `Except`; success maps to `"stopped"`, and `catchAll` turns a
recognized already-closed error into `"alreadyClosed"`, re-raising anything
else. -/
def stopPollSafe (result : Except TelegramError Unit) :
    Except TelegramError StopPollOutcome :=
  match result with
  | .ok _ => .ok .stopped
  | .error e =>
    if isPollAlreadyClosed e then .ok .alreadyClosed else .error e

/-- **C8 counterexample.** The conversion does not require the *description*
to contain a closed-poll fragment: the code falls back to the error's
`message` when the description is absent or empty. An API error with
`method="stopPoll"`, `code=400`, no description at all, and a message
containing the fragment is still converted to `"alreadyClosed"`, although
the empty description contains no fragment. -/
theorem stopPollSafe_description_counterexample :
    isPollAlreadyClosedMessage "" = false ∧
    stopPollSafe (Except.error (TelegramError.apiError none (some 400)
      (some "stopPoll") (some "poll has already been closed"))) =
      Except.ok StopPollOutcome.alreadyClosed := by
  constructor
  · rfl
  · rfl

theorem finishPoll_of_some (s : BotState) (cid : String) (chat : ChatState)
    (hc : s.chats cid = some chat) :
    ∃ chat', (finishPoll s cid).chats cid = some chat' ∧
      chat'.history = chat.history ∧ chat'.poll = none ∧
      chat'.participants = mapEmpty := by
  unfold finishPoll
  cases hp : chat.poll with
  | none =>
    rw [clearPoll_eq_nopoll s cid _ chat hc hp]
    exact ⟨_, mapInsert_self _ _ _, rfl, rfl, rfl⟩
  | some p =>
    by_cases he : p.pollId = ""
    · have heq : clearPoll s cid
          (fun current =>
            { current with poll := none, participants := mapEmpty }) =
          { s with
            chats := mapInsert s.chats cid { chat with
              poll := none
              participants := mapEmpty } } := by
        unfold clearPoll
        rw [hc]
        simp only [hp, Option.map, if_pos he, updateChat, hc]
      rw [heq]
      exact ⟨_, mapInsert_self _ _ _, rfl, rfl, rfl⟩
    · rw [clearPoll_eq_poll s cid _ chat p hc hp he]
      exact ⟨_, mapInsert_self _ _ _, rfl, rfl, rfl⟩

/-- **C8 (amended).** A failed `stopPoll` call is converted to the
successful `"alreadyClosed"` outcome exactly when the failure is a platform
API error with `method = "stopPoll"`, `code = 400`, whose description — or,
when the description is absent or empty, whose message — case-insensitively
contains one of the known closed-poll fragments; every other error is
re-raised (aborting the summarization); a successful stop maps to
`"stopped"`; and on the already-closed path the persisted state is
`finishPoll`, which clears the poll and participants and leaves the chat's
pair history untouched. -/
theorem stopPollSafe_spec (e : TelegramError) :
    (stopPollSafe (Except.error e) = Except.ok StopPollOutcome.alreadyClosed ↔
      ∃ desc code method msg,
        e = TelegramError.apiError desc code method msg ∧
        method = some "stopPoll" ∧ code = some 400 ∧
        ∃ fragment ∈ stopPollClosedMessageFragments,
          strIncludes (jsToLower (jsOrElse desc msg)) fragment = true) ∧
    (isPollAlreadyClosed e = false →
      stopPollSafe (Except.error e) = Except.error e) ∧
    stopPollSafe (Except.ok ()) = Except.ok StopPollOutcome.stopped ∧
    (∀ s cid chat, s.chats cid = some chat →
      ∃ chat', (finishPoll s cid).chats cid = some chat' ∧
        chat'.history = chat.history ∧ chat'.poll = none ∧
        chat'.participants = mapEmpty) := by
  have hse : ∀ (err : TelegramError), stopPollSafe (Except.error err) =
      if isPollAlreadyClosed err then Except.ok StopPollOutcome.alreadyClosed
      else Except.error err := fun _ => rfl
  have hapi : ∀ (desc : Option String) (code : Option Int)
      (method msg : Option String),
      isPollAlreadyClosed (TelegramError.apiError desc code method msg) =
        if method ≠ some "stopPoll" ∨ code ≠ some 400 then false
        else isPollAlreadyClosedMessage (jsOrElse desc msg) :=
    fun _ _ _ _ => rfl
  refine ⟨?_, ?_, rfl, fun s cid chat hc => finishPoll_of_some s cid chat hc⟩
  · constructor
    · intro h
      rw [hse e] at h
      by_cases hcl : isPollAlreadyClosed e = true
      · cases e with
        | networkError m => exact absurd hcl (by simp [isPollAlreadyClosed])
        | apiError desc code method msg =>
          rw [hapi] at hcl
          by_cases hg : method ≠ some "stopPoll" ∨ code ≠ some 400
          · rw [if_pos hg] at hcl
            exact absurd hcl (by simp)
          · rw [if_neg hg] at hcl
            push_neg at hg
            unfold isPollAlreadyClosedMessage at hcl
            obtain ⟨hfrag, hmem, hinc⟩ := List.any_eq_true.mp hcl
            exact ⟨desc, code, method, msg, rfl, hg.1, hg.2, hfrag, hmem,
              hinc⟩
      · rw [if_neg hcl] at h
        exact Except.noConfusion h
    · rintro ⟨desc, code, method, msg, rfl, hm, hcode, fragment, hmem, hinc⟩
      have hcl : isPollAlreadyClosed
          (TelegramError.apiError desc code method msg) = true := by
        rw [hapi, if_neg (by push_neg; exact ⟨hm, hcode⟩)]
        unfold isPollAlreadyClosedMessage
        exact List.any_eq_true.mpr ⟨fragment, hmem, hinc⟩
      rw [hse _, if_pos hcl]
  · intro h
    rw [hse e, h]
    simp

/-- Witness for C8 (amended): the canonical Telegram wording with code 400
is converted to `"alreadyClosed"`, and `finishPoll` on a one-chat state
keeps the history. -/
theorem stopPollSafe_spec_witness :
    stopPollSafe (Except.error (TelegramError.apiError
      (some "Bad Request: poll has already been closed") (some 400)
      (some "stopPoll") none)) = Except.ok StopPollOutcome.alreadyClosed ∧
    (∃ chat', (finishPoll
      (BotState.mk (mapInsert mapEmpty "100" (emptyChatState 3)) mapEmpty 0 1)
      "100").chats "100" = some chat' ∧
      chat'.history = (emptyChatState 3).history ∧ chat'.poll = none ∧
      chat'.participants = mapEmpty) :=
  ⟨(stopPollSafe_spec (TelegramError.apiError
      (some "Bad Request: poll has already been closed") (some 400)
      (some "stopPoll") none)).1.mpr
    ⟨some "Bad Request: poll has already been closed", some 400,
      some "stopPoll", none, rfl, rfl, rfl,
      "poll has already been closed", by decide, by decide⟩,
   (stopPollSafe_spec (TelegramError.networkError "x")).2.2.2
    (BotState.mk (mapInsert mapEmpty "100" (emptyChatState 3)) mapEmpty 0 1)
    "100" (emptyChatState 3) rfl⟩

end RandomCoffee
